import Mathlib

/-!
# libykneomgr: the PC/SC backend (lib/backend_pcsc.c)

A shallow embedding of `backend_authenticate`, `backend_applet_list`,
`backend_applet_delete` and `backend_applet_install` together with the helpers
they call.

Conventions of the embedding.

* A byte is a `Nat` below 256; a store into a `uint8_t` is written `% 256`, a
  read of a single byte goes through `byteAt`.  A buffer is a `List Nat`, and
  the inputs (keys, AIDs, archive entries, replies) are lists of bytes.
* A pointer into a buffer is the offset from the start of that buffer.
* The reader (`SCardTransmit`), the DES primitives of `des.h` and the zip
  library are not part of the translated file.  The reader is a field of the
  device, the DES primitives are the parameter `DesLib`, an opened archive is
  a list of named entries.
* `ykneomgr_dev.log` is ghost state: every command handed to `SCardTransmit`
  is appended to it, paired with what the reader answered.
* A read of a byte that lies behind the bytes a buffer holds gives `0`; the
  fixed sizes of the C arrays `send` and `recv` are not modelled.  The
  statements about a run of `backend_applet_install` therefore assume
  `install_in_bounds`, under which no access leaves an array.
* Definitions whose comment starts with "Spec side" follow the words of the
  specification and are what the code is compared with.
-/

namespace Ykneomgr

/-- Return codes used by the backend (the two values of `ykneomgr_rc` that
`backend_pcsc.c` returns). -/
inductive ykneomgr_rc where
  | YKNEOMGR_OK
  | YKNEOMGR_BACKEND_ERROR
  deriving DecidableEq, Repr

open ykneomgr_rc

/-- What one call of `SCardTransmit` leaves behind: its `LONG` result, the
contents of the receive buffer and the value of the length word; the response
of the card is the first `recvlen` bytes of `recv`. -/
structure Reply where
  result : Int
  recv : List Nat
  recvlen : Nat
  deriving DecidableEq, Repr

/-- The value `SCARD_S_SUCCESS`. -/
def SCARD_S_SUCCESS : Int := 0

/-- The device handle.  `card` is the behaviour of `SCardTransmit` on this
handle: from the commands transmitted before, the command transmitted now and
the capacity passed in, to the reply.  `log` records the exchanges. -/
structure ykneomgr_dev where
  card : List (List Nat) → List Nat → Nat → Reply
  log : List (List Nat × Reply)

/-- Result of `backend_apdu`: the return code, the device, and the two
out-parameters `recv` and `*recvlen`. -/
structure ApduResult where
  rc : ykneomgr_rc
  dev : ykneomgr_dev
  recv : List Nat
  recvlen : Nat

/-- The byte `b[i]`. -/
def byteAt (b : List Nat) (i : Nat) : Nat := b.getD i 0 % 256

/-- The `n` bytes of `b` starting at offset `off` (the source of a `memcpy`). -/
def slice (b : List Nat) (off n : Nat) : List Nat :=
  ((b.drop off) ++ List.replicate n 0).take n

/-- The buffer `dst` after `memcpy (dst + off, src, src.length)`. -/
def memcpy (dst : List Nat) (off : Nat) (src : List Nat) : List Nat :=
  dst.take off ++ src ++ dst.drop (off + src.length)

/-- The eight bytes a DES primitive stores at its output pointer. -/
def block8 (out : List Nat) : List Nat :=
  (List.range 8).map (fun i => byteAt out i)

/-- The loop `for (i = 0; i < 8; i++) a[i] ^= b[i]`. -/
def xor8 (a b : List Nat) : List Nat :=
  (List.range 8).map (fun i => byteAt a i ^^^ byteAt b i)

/-- The DES primitives of `des.h`, which `backend_pcsc.c` only calls.  A key
schedule has the C type `unsigned char [3][16][6]`; the mode argument of
`three_des_key_setup` is always `DES_ENCRYPT` and is left out. -/
structure DesLib where
  three_des_key_setup : List Nat → List (List (List Nat))
  three_des_crypt : List Nat → List (List (List Nat)) → List Nat
  des_crypt : List Nat → List (List Nat) → List Nat

/-- The array `selectApdu` (lines 22-25). -/
def selectApdu : List Nat :=
  [0x00, 0xa4, 0x04, 0x00, 0x08, 0xa0, 0x00, 0x00, 0x00, 0x03, 0x00, 0x00, 0x00]

/-- The array `initUpdate` (line 26); its bytes 5..12 are the host challenge. -/
def initUpdate : List Nat :=
  [0x80, 0x50, 0x00, 0x00, 0x08, 0x01, 0x02, 0x03, 0x04, 0x05, 0x06, 0x07, 0x08]

/-- The array `listApdu` (lines 27-28). -/
def listApdu : List Nat := [0x80, 0xf2, 0x40, 0x00, 0x02, 0x4f, 0x00, 0x00]

/-- The array `sdAid` (lines 29-30). -/
def sdAid : List Nat := [0xa0, 0x00, 0x00, 0x00, 0x03, 0x00, 0x00, 0x00]

/-- The array `components` (lines 32-35). -/
def components : List String :=
  ["Header.cap", "Directory.cap", "Import.cap", "Applet.cap", "Class.cap",
   "Method.cap", "StaticField.cap", "ConstantPool.cap", "RefLocation.cap"]

/-- The constant `DES_BLOCK_SIZE`. -/
def DES_BLOCK_SIZE : Nat := 8

/-- The body of `des_encrypt_cbc` (lines 37-57), with the depth of the recursion bounded by
the first argument; `none` when the bound is reached.  `inp` is the input from
the pointer `in` on.  The result is the returned `i` and the bytes stored from
`out` on.  The lengths are `size_t`, so `in_len -= 8` and `out_len -= 8` wrap
modulo 2^64. -/
def des_encrypt_cbc_fuel (D : DesLib) : Nat → List Nat → Nat → Nat → List Nat →
    List (List (List Nat)) → Option (Nat × List Nat)
  | 0, _, _, _, _, _ => none
  | fuel + 1, inp, in_len, out_len, iv, schedule =>
    let tmp := xor8 inp iv
    let out := block8 (D.three_des_crypt tmp schedule)
    let in_len1 := (in_len + 18446744073709551616 - DES_BLOCK_SIZE) % 18446744073709551616
    let out_len1 := (out_len + 18446744073709551616 - DES_BLOCK_SIZE) % 18446744073709551616
    if 0 < in_len1 ∧ DES_BLOCK_SIZE ≤ out_len1 then
      match des_encrypt_cbc_fuel D fuel (inp.drop 8) in_len1 out_len1 out schedule with
      | some r => some (8 + r.1, out ++ r.2)
      | none => none
    else some (8, out)

/-- The function `des_encrypt_cbc`.  A call recurses only while the wrapped
`out_len` is at least 8, so its depth never exceeds 2^61 + 2 (theorem
`des_encrypt_cbc_fuel_isSome`) and the default below is never taken. -/
def des_encrypt_cbc (D : DesLib) (inp : List Nat) (in_len out_len : Nat) (iv : List Nat)
    (schedule : List (List (List Nat))) : Nat × List Nat :=
  (des_encrypt_cbc_fuel D 2305843009213693954 inp in_len out_len iv schedule).getD (0, [])

/-- The function `backend_apdu` (lines 109-148), the debug printing left out.
The command is the first `sendlen` bytes of `send`. -/
def backend_apdu (dev : ykneomgr_dev) (send : List Nat) (sendlen : Nat) (recvlen : Nat) :
    ApduResult :=
  let cmd := send.take sendlen
  let r := dev.card (dev.log.map Prod.fst) cmd recvlen
  let dev1 : ykneomgr_dev := { dev with log := dev.log ++ [(cmd, r)] }
  if r.result ≠ SCARD_S_SUCCESS then
    ⟨YKNEOMGR_BACKEND_ERROR, dev1, r.recv, r.recvlen⟩
  else
    ⟨YKNEOMGR_OK, dev1, r.recv, r.recvlen⟩

/-- The statements of `backend_authenticate` from `memset (send, 0, ...)` to the
last `three_des_crypt` (lines 241-257): the buffer `send` that they build from
the host cryptogram in `tmp` and from `mackey`. -/
def authenticate_send (D : DesLib) (mackey tmp : List Nat) : List Nat :=
  let send := ((((List.replicate 256 0).set 0 0x84).set 1 0x82).set 2 0x00).set 3 0x00
  let send := send.set 4 0x10
  let send := memcpy send 5 (slice tmp 0 DES_BLOCK_SIZE)
  let raw_key := slice mackey 0 16 ++ slice mackey 0 8
  let schedule := D.three_des_key_setup raw_key
  let tmp := block8 (D.des_crypt (slice send 0 8) (schedule.getD 0 []))
  let tmp := xor8 tmp (slice send 8 8)
  let tmp := tmp.set 5 (byteAt tmp 5 ^^^ 0x80)
  memcpy send (5 + 8) (block8 (D.three_des_crypt tmp schedule))

/-- The values that the straight-line part of `backend_authenticate` computes
from the INITIALIZE UPDATE response: `sessionkey` (line 197), `mackey`
(line 206), `tmp` when it is compared with the card cryptogram (line 224),
`tmp` when it is copied into `send` (line 247), and `send` when it is
transmitted (line 259). -/
structure auth_vars where
  sessionkey : List Nat
  mackey : List Nat
  card_cryptogram : List Nat
  host_cryptogram : List Nat
  send : List Nat

/-- The straight-line part of `backend_authenticate` (lines 186-257) for the
INITIALIZE UPDATE response `recv`: the statements in source order, without the
transport calls and the two returns between them.  The statements are pure, so
`backend_authenticate` reads `card_cryptogram` at the comparison of line 224
and `send` at the call of line 259. -/
def authenticate_vars (D : DesLib) (key recv : List Nat) : auth_vars :=
  let raw_key := slice key 0 16 ++ slice key 0 8
  let schedule := D.three_des_key_setup raw_key
  let iv := List.replicate 8 0
  let buf := ((((List.replicate 16 0).set 0 0x01).set 1 0x82).set 2 (byteAt recv 12)).set 3
    (byteAt recv 13)
  let sessionkey := (des_encrypt_cbc D buf 16 16 iv schedule).2
  let buf := ((((List.replicate 16 0).set 0 0x01).set 1 0x01).set 2 (byteAt recv 12)).set 3
    (byteAt recv 13)
  let mackey := (des_encrypt_cbc D buf 16 16 iv schedule).2
  let buf := memcpy buf 0 (slice initUpdate 5 8)
  let buf := (buf.set 8 (byteAt recv 12)).set 9 (byteAt recv 13)
  let buf := memcpy buf 10 (slice recv 14 6)
  let raw_key := slice sessionkey 0 16 ++ slice sessionkey 0 8
  let schedule := D.three_des_key_setup raw_key
  let tmp := block8 (D.three_des_crypt (slice buf 0 8) schedule)
  let tmp := xor8 tmp (slice buf 8 8)
  let buf := memcpy buf 0 (block8 (D.three_des_crypt tmp schedule))
  let buf := buf.set 0 (byteAt buf 0 ^^^ 0x80)
  let card_cryptogram := block8 (D.three_des_crypt (slice buf 0 8) schedule)
  let buf := (buf.set 0 (byteAt recv 12)).set 1 (byteAt recv 13)
  let buf := memcpy buf 2 (slice recv 14 6)
  let buf := memcpy buf 8 (slice initUpdate 5 8)
  let tmp := block8 (D.three_des_crypt (slice buf 0 8) schedule)
  let tmp := xor8 tmp (slice buf 8 8)
  let buf := memcpy buf 0 (block8 (D.three_des_crypt tmp schedule))
  let buf := buf.set 0 (byteAt buf 0 ^^^ 0x80)
  let tmp := block8 (D.three_des_crypt (slice buf 0 8) schedule)
  ⟨sessionkey, mackey, card_cryptogram, tmp, authenticate_send D mackey tmp⟩

/-- The function `backend_authenticate` (lines 168-265).  The results of the
three `backend_apdu` calls are not looked at, as in the source; `recvlen` is
not reset between the calls, as in the source.  The statements between the
transport calls are `authenticate_vars`. -/
def backend_authenticate (D : DesLib) (dev : ykneomgr_dev) (key : List Nat) :
    ykneomgr_rc × ykneomgr_dev :=
  let a1 := backend_apdu dev selectApdu 13 256
  let a2 := backend_apdu a1.dev initUpdate 13 a1.recvlen
  if a2.recvlen ≠ 30 then (YKNEOMGR_BACKEND_ERROR, a2.dev) else
  let v := authenticate_vars D key a2.recv
  if v.card_cryptogram ≠ slice a2.recv 20 DES_BLOCK_SIZE then
    (YKNEOMGR_BACKEND_ERROR, a2.dev)
  else
  let a3 := backend_apdu a2.dev v.send (5 + 16) a2.recvlen
  if a3.recvlen = 2 ∧ byteAt a3.recv 0 = 0x90 ∧ byteAt a3.recv 1 = 0x00 then
    (YKNEOMGR_OK, a3.dev)
  else (YKNEOMGR_BACKEND_ERROR, a3.dev)

/-- The function `backend_applet_delete` (lines 305-332); `aid` holds the bytes
from the pointer `aid` on. -/
def backend_applet_delete (dev : ykneomgr_dev) (aid : List Nat) (aidlen : Nat) :
    ykneomgr_rc × ykneomgr_dev :=
  let send := [0x80, 0xe4, 0, 0x80, (aidlen + 2) % 256, 0x4f, aidlen % 256] ++ slice aid 0 aidlen
  let sendlen := send.length
  let a := backend_apdu dev send sendlen 261
  if a.recvlen = 3 ∧ byteAt a.recv 1 = 0x90 then (YKNEOMGR_OK, a.dev)
  else (YKNEOMGR_BACKEND_ERROR, a.dev)

/-- The two characters that `sprintf (p, "%02x", b)` stores for the byte `b`.
The terminating NUL that `sprintf` stores after them is overwritten by the next
store of the loop, or stored again by `*p = 0`. -/
def sprintf_02x (b : Nat) : List Char := [Nat.digitChar (b / 16), Nat.digitChar (b % 16)]

/-- The inner loop of `backend_applet_list` (lines 291-297): the first argument
is the number of iterations left, `length` the index into `recv`, `out` the
characters stored at the destination so far, so `p` is the end of `out` and
`real_len` its length. -/
def list_inner (recv : List Nat) : Nat → Nat → List Char → Nat × List Char
  | 0, length, out => (length, out)
  | n + 1, length, out =>
    list_inner recv n ((length + 1) % 18446744073709551616)
      (out ++ sprintf_02x (byteAt recv length))

/-- The outer loop of `backend_applet_list` (lines 286-301), with the number of
iterations bounded by the first argument; `none` when the bound is reached.
`recvlen - 2` is computed in `size_t`. -/
def list_loop (recv : List Nat) (recvlen : Nat) : Nat → Nat → List Char → Option (List Char)
  | 0, _, _ => none
  | fuel + 1, length, out =>
    if length < (recvlen + 18446744073709551616 - 2) % 18446744073709551616 then
      let this_len := byteAt recv length
      let r := list_inner recv this_len ((length + 1) % 18446744073709551616) out
      let out := r.2 ++ [Char.ofNat 0]
      list_loop recv recvlen fuel ((r.1 + 2) % 18446744073709551616) out
    else some out

/-- The conversion of a `size_t` value to `int` (line 279): the low 32 bits,
read in two's complement. -/
def int_of_size (v : Nat) : Int :=
  if v % 4294967296 < 2147483648 then ((v % 4294967296 : Nat) : Int)
  else ((v % 4294967296 : Nat) : Int) - 4294967296

/-- Result of `backend_applet_list`: the return code, the device, the value
stored in `*len`, and the characters stored at `appletstr` (`some []` when
`appletstr` is `NULL`; `none` when the loop does not end within `recvlen`
iterations, which needs `recvlen < 2`, see `list_loop_isSome`). -/
structure list_result where
  rc : ykneomgr_rc
  dev : ykneomgr_dev
  len : Nat
  written : Option (List Char)

/-- The function `backend_applet_list` (lines 267-303); `appletstr` is `false`
for the call with `appletstr == NULL`. -/
def backend_applet_list (dev : ykneomgr_dev) (appletstr : Bool) : list_result :=
  let a := backend_apdu dev listApdu 8 256
  let needlen : Int :=
    int_of_size ((((a.recvlen + 18446744073709551616 - 2) % 18446744073709551616) * 2)
      % 18446744073709551616)
  let len := (needlen % 18446744073709551616).toNat
  if appletstr = false then ⟨YKNEOMGR_OK, a.dev, len, some []⟩
  else ⟨YKNEOMGR_OK, a.dev, len, list_loop a.recv a.recvlen a.recvlen 0 []⟩

/-- An opened CAP archive: the entries with their names (without the directory
part, which the flag `ZIP_FL_NODIR` makes the library ignore) and their
uncompressed contents. -/
abbrev zip := List (String × List Nat)

/-- The call `zip_stat (cap, name, ZIP_FL_NODIR, &stat)`: `some stat.size` when
it returns 0, `none` when the entry does not exist. -/
def zip_stat (cap : zip) (name : String) : Option Nat :=
  (cap.lookup name).map List.length

/-- The calls `zip_fopen (cap, name, ZIP_FL_NODIR)` and `zip_fread (file, p, n)`:
the bytes stored at `p`, at most `n` of them; their number is the result of
`zip_fread`. -/
def zip_fread (cap : zip) (name : String) (n : Nat) : List Nat :=
  ((cap.lookup name).getD []).take n

/-- The first loop of `backend_applet_install` (lines 354-365): the sizes of the components are
added to `total_size`; `none` is the jump to `cleanup`. -/
def stat_loop (cap : zip) : List String → Nat → Option Nat
  | [], total_size => some total_size
  | c :: cs, total_size =>
    match zip_stat cap c with
    | some size => stat_loop cap cs (total_size + size)
    | none => none

/-- The tag and the length bytes that `backend_applet_install` stores at the
start of `buf` (lines 370-400), and the new value of `total_size`; `none` is
the jump to `cleanup`. -/
def lfdb_header (total_size : Nat) : Option (List Nat × Nat) :=
  if total_size < 0x80 then
    some ([0xc4, total_size % 256], total_size + 2)
  else if total_size < 0xff then
    some ([0xc4, 0x81, total_size % 256], total_size + 3)
  else if total_size < 0xffff then
    some ([0xc4, 0x82, ((total_size &&& 0xff00) >>> 8) % 256, (total_size &&& 0xff) % 256],
      total_size + 4)
  else if total_size < 0xffffff then
    some ([0xc4, 0x83, ((total_size &&& 0xff0000) >>> 16) % 256,
      ((total_size &&& 0xff00) >>> 8) % 256, (total_size &&& 0xff) % 256], total_size + 5)
  else none

/-- The variables of `backend_applet_install` that the second loop changes.
`buf` holds the bytes stored so far, so the pointer `p` is `buf.length`;
`packaid` and `appaid` are offsets into `buf`. -/
structure cap_state where
  buf : List Nat
  packaidlen : Nat
  packaid : Nat
  appaidlen : Nat
  appaid : Nat

/-- The second loop of `backend_applet_install` (lines 402-423): the components
are read into `buf` one after the other; `none` is the jump to `cleanup`. -/
def read_loop (cap : zip) (total_size : Nat) : List String → cap_state → Option cap_state
  | [], st => some st
  | c :: cs, st =>
    let p := st.buf.length
    let buf := st.buf ++ zip_fread cap c (total_size - p)
    if c = "Header.cap" then
      read_loop cap total_size cs
        { st with buf := buf, packaidlen := byteAt buf (p + 12), packaid := p + 13 }
    else if c = "Applet.cap" then
      if byteAt buf (p + 3) ≠ 1 then none
      else
        read_loop cap total_size cs
          { st with buf := buf, appaidlen := byteAt buf (p + 4), appaid := p + 5 }
    else read_loop cap total_size cs { st with buf := buf }

/-- The load loop of `backend_applet_install` (lines 455-478).  The list holds the values that
`j` still takes, `p` is the offset `p - buf`.  The result is `false` after the
jump to `cleanup`. -/
def load_loop (buf : List Nat) (total_size : Nat) :
    List Nat → Nat → ykneomgr_dev → Bool × ykneomgr_dev
  | [], _, dev => (true, dev)
  | j :: js, p, dev =>
    let this_len := if 0xff > total_size - p then total_size - p else 0xff
    let p2 := if 0xff > total_size - p then 0x80 else 0
    let send := [0x80, 0xe8, p2, j % 256, this_len % 256] ++ slice buf p this_len
    let a := backend_apdu dev send (this_len + 5) 256
    if a.recvlen ≠ 3 ∧ byteAt a.recv 1 ≠ 0x90 then (false, a.dev)
    else load_loop buf total_size js (p + this_len) a.dev

/-- The function `backend_applet_install` (lines 334-517); the argument is the
result of `zip_open (capfile, 0, &error)`, `none` for `NULL`.  The loop
variable `j` of the load loop takes the values of
`List.range (total_size / 0xff + 1)`. -/
def backend_applet_install (dev : ykneomgr_dev) (cap : Option zip) :
    ykneomgr_rc × ykneomgr_dev :=
  match cap with
  | none => (YKNEOMGR_BACKEND_ERROR, dev)
  | some cap =>
    match stat_loop cap components 0 with
    | none => (YKNEOMGR_BACKEND_ERROR, dev)
    | some total_size =>
      match lfdb_header total_size with
      | none => (YKNEOMGR_BACKEND_ERROR, dev)
      | some (tag, total_size) =>
        match read_loop cap total_size components ⟨tag, 0, 0, 0, 0⟩ with
        | none => (YKNEOMGR_BACKEND_ERROR, dev)
        | some st =>
          -- install for load
          let send := [0x80, 0xe6, 0x02, 0, (1 + st.packaidlen + 1 + 8 + 1 + 1 + 1) % 256,
            st.packaidlen % 256] ++ slice st.buf st.packaid st.packaidlen ++ [8] ++ sdAid
            ++ [0, 0, 0]
          let a := backend_apdu dev send send.length 256
          if a.recvlen ≠ 3 ∧ byteAt a.recv 1 ≠ 0x90 then (YKNEOMGR_BACKEND_ERROR, a.dev) else
          -- load
          let l := load_loop st.buf total_size (List.range (total_size / 0xff + 1)) 0 a.dev
          if l.1 = false then (YKNEOMGR_BACKEND_ERROR, l.2) else
          -- install and make selectable
          let send := [0x80, 0xe6, 0x0c, 0,
            (1 + st.packaidlen + 1 + st.appaidlen + 1 + st.appaidlen + 1 + 1 + 3 + 1 + 1) % 256,
            st.packaidlen % 256] ++ slice st.buf st.packaid st.packaidlen
            ++ [st.appaidlen % 256] ++ slice st.buf st.appaid st.appaidlen
            ++ [st.appaidlen % 256] ++ slice st.buf st.appaid st.appaidlen
            ++ [1, 0, 3, 0xc9, 0x01, 0, 0]
          let b := backend_apdu l.2 send send.length 256
          if b.recvlen ≠ 3 ∧ byteAt b.recv 1 ≠ 0x90 then (YKNEOMGR_BACKEND_ERROR, b.dev)
          else (YKNEOMGR_OK, b.dev)

/-- The archives on which every access of `backend_applet_install` to its
arrays is inside them: the bytes `p[12]` and `p[4]` and the AIDs that follow
them lie inside `Header.cap` and `Applet.cap` (lines 408-419), and the two
INSTALL commands, of `18 + packaidlen` and `15 + packaidlen + 2 * appaidlen`
bytes, fit the array `send` of `0xff + 5` bytes (line 428).  The embedding
keeps commands as lists and reads `0` behind a buffer, so it describes the C
function on these archives only. -/
def install_in_bounds (cap : zip) : Prop :=
  13 + byteAt ((cap.lookup "Header.cap").getD []) 12 ≤ ((cap.lookup "Header.cap").getD []).length
  ∧ 5 + byteAt ((cap.lookup "Applet.cap").getD []) 4 ≤ ((cap.lookup "Applet.cap").getD []).length
  ∧ 18 + byteAt ((cap.lookup "Header.cap").getD []) 12 ≤ 0xff + 5
  ∧ 15 + byteAt ((cap.lookup "Header.cap").getD []) 12
      + 2 * byteAt ((cap.lookup "Applet.cap").getD []) 4 ≤ 0xff + 5

/-- The exchanges a call appended to the log of the device. -/
def exchanges (before after : ykneomgr_dev) : List (List Nat × Reply) :=
  after.log.drop before.log.length

/-- Spec side: CBC encryption with an explicit running IV over a list of
8-byte blocks. -/
def spec_cbc (D : DesLib) (schedule : List (List (List Nat))) :
    List Nat → List (List Nat) → List Nat
  | _, [] => []
  | iv, p :: ps =>
    let c := block8 (D.three_des_crypt (xor8 p iv) schedule)
    c ++ spec_cbc D schedule c ps

/-- Spec side: the schedule of a 16-byte two-key triple-DES key, expanded to 24
bytes by repeating its first 8 bytes. -/
def spec_schedule (D : DesLib) (key : List Nat) : List (List (List Nat)) :=
  D.three_des_key_setup (slice key 0 16 ++ slice key 0 8)

/-- Spec side: the key derived from the static key `key` with the derivation
constant `c0 c1` and the sequence counter `s0 s1`: the block
`c0 c1 s0 s1 0 .. 0` of 16 bytes, CBC-encrypted under a zero IV. -/
def spec_derive (D : DesLib) (key : List Nat) (c0 c1 s0 s1 : Nat) : List Nat :=
  spec_cbc D (spec_schedule D key) [0, 0, 0, 0, 0, 0, 0, 0]
    [[c0, c1, s0, s1, 0, 0, 0, 0], [0, 0, 0, 0, 0, 0, 0, 0]]

/-- Spec side: the Retail MAC construction over a 16-byte block: encrypt the
first half, XOR with the second half, encrypt, XOR 0x80 into the first byte,
encrypt. -/
def spec_retail_mac (D : DesLib) (schedule : List (List (List Nat))) (block : List Nat) :
    List Nat :=
  let e1 := block8 (D.three_des_crypt (slice block 0 8) schedule)
  let e2 := block8 (D.three_des_crypt (xor8 e1 (slice block 8 8)) schedule)
  block8 (D.three_des_crypt (e2.set 0 (byteAt e2 0 ^^^ 0x80)) schedule)

/-- Spec side: the card cryptogram expected for the INITIALIZE UPDATE response
`recv`: the Retail MAC under the session key (derivation constant 01 82) over
host challenge, sequence counter and card challenge. -/
def spec_card_cryptogram (D : DesLib) (key : List Nat) (recv : List Nat) : List Nat :=
  spec_retail_mac D
    (spec_schedule D (spec_derive D key 0x01 0x82 (byteAt recv 12) (byteAt recv 13)))
    (slice initUpdate 5 8 ++ [byteAt recv 12, byteAt recv 13] ++ slice recv 14 6)

/-- Spec side: the sum of the sizes of the named components of an archive. -/
def comp_total (cap : zip) (cs : List String) : Nat :=
  (cs.map (fun c => ((cap.lookup c).getD []).length)).sum

/-- Spec side: the bytes of the named components, one after the other. -/
def comp_bytes (cap : zip) (cs : List String) : List Nat :=
  (cs.map (fun c => (cap.lookup c).getD [])).flatten

/-- Spec side: `s` as `k` big-endian bytes. -/
def big_endian : Nat → Nat → List Nat
  | 0, _ => []
  | k + 1, s => (s / 256 ^ k) % 256 :: big_endian k s

/-- Spec side: the length encoding that follows the tag `0xC4`, for a
component total below `0xFFFFFF`. -/
def spec_length_encoding (s : Nat) : List Nat :=
  if s < 0x80 then [s]
  else if s < 0xff then [0x81, s]
  else if s < 0xffff then 0x82 :: big_endian 2 s
  else 0x83 :: big_endian 3 s

/-- Spec side: the load file data block of a CAP archive. -/
def spec_lfdb (cap : zip) : List Nat :=
  0xc4 :: spec_length_encoding (comp_total cap components) ++ comp_bytes cap components

/-- The card answers every command with a reply that the checks of
`backend_applet_install` let pass. -/
def accepts (card : List (List Nat) → List Nat → Nat → Reply) : Prop :=
  ∀ hist cmd n, ¬ ((card hist cmd n).recvlen ≠ 3 ∧ byteAt (card hist cmd n).recv 1 ≠ 0x90)

/-- A successful reply to an INSTALL, LOAD or DELETE command: the transport
succeeds and the three bytes of the response end in the status word 0x9000. -/
def Reply.success (r : Reply) : Prop :=
  r.result = SCARD_S_SUCCESS ∧ r.recvlen = 3 ∧ byteAt r.recv 1 = 0x90 ∧ byteAt r.recv 2 = 0x00

/-- Every reply of the card is successful. -/
def all_success (card : List (List Nat) → List Nat → Nat → Reply) : Prop :=
  ∀ hist cmd n, (card hist cmd n).success

/-- The commands that the load loop builds for the values of `j` in the list,
starting at offset `p`: the loop without the transport. -/
def load_cmds (buf : List Nat) (total_size : Nat) : List Nat → Nat → List (List Nat)
  | [], _ => []
  | j :: js, p =>
    let this_len := if 0xff > total_size - p then total_size - p else 0xff
    let p2 := if 0xff > total_size - p then 0x80 else 0
    ([0x80, 0xe8, p2, j % 256, this_len % 256] ++ slice buf p this_len)
      :: load_cmds buf total_size js (p + this_len)

/-- The commands a call handed to the reader, in order. -/
def sent (before after : ykneomgr_dev) : List (List Nat) :=
  (exchanges before after).map Prod.fst

/-- The LOAD commands (instruction byte `0xE8`) among the commands a call
handed to the reader. -/
def load_apdus (before after : ykneomgr_dev) : List (List Nat) :=
  (sent before after).filter (fun c => c.getD 1 0 = 0xe8)

/-- Spec side: the quotient `n / d` rounded up. -/
def ceil_div (n d : Nat) : Nat := (n + d - 1) / d

/-- Spec side: ISO 7816-4 padding, the byte 0x80 and then zero bytes up to the
next multiple of 8. -/
def spec_pad (msg : List Nat) : List Nat :=
  msg ++ 0x80 :: List.replicate (7 - msg.length % 8) 0

/-- Spec side: the Retail MAC (ISO/IEC 9797-1 MAC algorithm 3) over the padded
message when that has two blocks: single DES under the left key on block 0,
XOR with block 1, triple DES. -/
def spec_command_mac (D : DesLib) (schedule : List (List (List Nat))) (msg : List Nat) :
    List Nat :=
  let m := spec_pad msg
  let b0 := m.take 8
  let b1 := (m.drop 8).take 8
  block8 (D.three_des_crypt (xor8 (block8 (D.des_crypt b0 (schedule.getD 0 []))) b1) schedule)

/-- Spec side: the first `n` blocks of 8 bytes of an input. -/
def cbc_blocks (inp : List Nat) (n : Nat) : List (List Nat) :=
  (List.range n).map (fun k => (inp.drop (8 * k)).take 8)

/-- Spec side: a byte string as lowercase hexadecimal digits, two per byte. -/
def spec_hex (aid : List Nat) : List Char :=
  (aid.map (fun b => [Nat.digitChar (b / 16), Nat.digitChar (b % 16)])).flatten

/-- Spec side: the strings of a list of AIDs, each followed by a NUL. -/
def spec_aid_strings (aids : List (List Nat)) : List Char :=
  (aids.map (fun aid => spec_hex aid ++ [Char.ofNat 0])).flatten

/-- Spec side: an entry of a GET STATUS response, the AID and the two bytes
that follow it, as length byte, AID bytes and the two bytes. -/
def status_entry (e : List Nat × Nat × Nat) : List Nat :=
  e.1.length :: e.1 ++ [e.2.1, e.2.2]

/-! ### Concrete inputs -/

/-- A stand-in for the DES primitives in which every encryption is the
identity; the properties below do not depend on the cipher. -/
def idDes : DesLib :=
  ⟨fun key => [[key]], fun b _ => b, fun b _ => b⟩

/-- A card that answers SELECT with 30 bytes of data and the status word
0x6283, INITIALIZE UPDATE with sequence counter and card challenge zero and the
cryptogram that `idDes` yields for them, and EXTERNAL AUTHENTICATE with 0x9000. -/
def cardSelectFails : List (List Nat) → List Nat → Nat → Reply := fun hist _ _ =>
  match hist.length with
  | 0 => ⟨0, List.replicate 30 0 ++ [0x62, 0x83], 32⟩
  | 1 => ⟨0, List.replicate 20 0 ++ [0x81, 2, 3, 4, 5, 6, 7, 8] ++ [0x90, 0x00], 30⟩
  | _ => ⟨0, [0x90, 0x00], 2⟩

/-- The same card, except that it answers SELECT with the status word 0x9000. -/
def cardSelectOk : List (List Nat) → List Nat → Nat → Reply := fun hist _ _ =>
  match hist.length with
  | 0 => ⟨0, List.replicate 30 0 ++ [0x90, 0x00], 32⟩
  | 1 => ⟨0, List.replicate 20 0 ++ [0x81, 2, 3, 4, 5, 6, 7, 8] ++ [0x90, 0x00], 30⟩
  | _ => ⟨0, [0x90, 0x00], 2⟩

/-- A card that answers every command with the three bytes `00 90 00`. -/
def cardOk : List (List Nat) → List Nat → Nat → Reply :=
  fun _ _ _ => ⟨0, [0x00, 0x90, 0x00], 3⟩

/-- A card that answers every command with the two bytes `90 00`. -/
def cardShortOk : List (List Nat) → List Nat → Nat → Reply :=
  fun _ _ _ => ⟨0, [0x90, 0x00], 2⟩

/-- A card that answers every command with the three bytes `00 90 01`. -/
def cardSw9001 : List (List Nat) → List Nat → Nat → Reply :=
  fun _ _ _ => ⟨0, [0x00, 0x90, 0x01], 3⟩

/-- A card that answers every command with the three bytes `00 6A 80`. -/
def cardSw6a80 : List (List Nat) → List Nat → Nat → Reply :=
  fun _ _ _ => ⟨0, [0x00, 0x6a, 0x80], 3⟩

/-- A card that answers every command with the four bytes `03 AA 90 00`. -/
def cardListShort : List (List Nat) → List Nat → Nat → Reply :=
  fun _ _ _ => ⟨0, [0x03, 0xaa, 0x90, 0x00], 4⟩

/-- A card that answers every command with `01 AA 01 BB 90 00`: two entries of
a length byte and one AID byte each, and the status word. -/
def cardListPairs : List (List Nat) → List Nat → Nat → Reply :=
  fun _ _ _ => ⟨0, [0x01, 0xaa, 0x01, 0xbb, 0x90, 0x00], 6⟩

/-- A card that answers every command with two entries, the AID `AA` and the
AID `BB CC`, each followed by the two bytes `07 00`, and the status word. -/
def cardListTwo : List (List Nat) → List Nat → Nat → Reply :=
  fun _ _ _ => ⟨0, [0x01, 0xaa, 0x07, 0x00, 0x02, 0xbb, 0xcc, 0x07, 0x00, 0x90, 0x00], 11⟩

/-- A small CAP archive: a 13-byte header with an empty package AID, an
applet component that declares one applet with an empty AID. -/
def capSmall : zip :=
  [("Header.cap", List.replicate 13 0), ("Directory.cap", []), ("Import.cap", []),
   ("Applet.cap", [0, 0, 0, 1, 0]), ("Class.cap", []), ("Method.cap", []),
   ("StaticField.cap", []), ("ConstantPool.cap", []), ("RefLocation.cap", [])]

/-- A CAP archive whose components add up to 252 bytes, so that the load file
data block has 255 bytes. -/
def cap252 : zip :=
  [("Header.cap", List.replicate 13 0), ("Directory.cap", List.replicate 234 0),
   ("Import.cap", []), ("Applet.cap", [0, 0, 0, 1, 0]), ("Class.cap", []), ("Method.cap", []),
   ("StaticField.cap", []), ("ConstantPool.cap", []), ("RefLocation.cap", [])]

/-- The archive `capSmall` without its `Method.cap`. -/
def capNoMethod : zip :=
  [("Header.cap", List.replicate 13 0), ("Directory.cap", []), ("Import.cap", []),
   ("Applet.cap", [0, 0, 0, 1, 0]), ("Class.cap", []),
   ("StaticField.cap", []), ("ConstantPool.cap", []), ("RefLocation.cap", [])]

/-- The archive `capSmall` with an applet component that declares two applets. -/
def capTwoApplets : zip :=
  [("Header.cap", List.replicate 13 0), ("Directory.cap", []), ("Import.cap", []),
   ("Applet.cap", [0, 0, 0, 2, 0, 0]), ("Class.cap", []), ("Method.cap", []),
   ("StaticField.cap", []), ("ConstantPool.cap", []), ("RefLocation.cap", [])]

/-- A CAP archive whose header component holds the package AID
A0 00 00 05 27 and whose applet component declares one applet with the AID
A0 00 00 05 27 01. -/
def capAids : zip :=
  [("Header.cap", List.replicate 12 0 ++ [5, 0xa0, 0x00, 0x00, 0x05, 0x27] ++ [0x01, 0x02]),
   ("Directory.cap", [1, 2, 3]), ("Import.cap", [4, 5]),
   ("Applet.cap", [0x03, 0x00, 0x0a, 1, 6, 0xa0, 0x00, 0x00, 0x05, 0x27, 0x01, 0x00, 0x08]),
   ("Class.cap", [6]), ("Method.cap", [7, 8]), ("StaticField.cap", []),
   ("ConstantPool.cap", [9]), ("RefLocation.cap", [10])]

/-- A CAP archive whose components add up to 65298 bytes, so that the load
file data block has 65302 bytes and is loaded in 257 blocks. -/
def capBlocks : zip :=
  [("Header.cap", List.replicate 13 0), ("Directory.cap", List.replicate 65280 0),
   ("Import.cap", []), ("Applet.cap", [0, 0, 0, 1, 0]), ("Class.cap", []), ("Method.cap", []),
   ("StaticField.cap", []), ("ConstantPool.cap", []), ("RefLocation.cap", [])]

/-- A CAP archive whose header component has 0xFFFFFF bytes; with the five
bytes of the applet component the total is 0x1000004. -/
def capHuge : zip :=
  [("Header.cap", List.replicate 16777215 0), ("Directory.cap", []), ("Import.cap", []),
   ("Applet.cap", [0, 0, 0, 1, 0]), ("Class.cap", []), ("Method.cap", []),
   ("StaticField.cap", []), ("ConstantPool.cap", []), ("RefLocation.cap", [])]

/-! ## Lemmas

### Buffers and the CBC helper -/

theorem slice_length (b : List Nat) (off n : Nat) : (slice b off n).length = n := by
  simp [slice]

theorem block8_eq (l : List Nat) :
    block8 l = [byteAt l 0, byteAt l 1, byteAt l 2, byteAt l 3, byteAt l 4, byteAt l 5,
      byteAt l 6, byteAt l 7] := rfl

theorem xor8_eq (a b : List Nat) :
    xor8 a b = [byteAt a 0 ^^^ byteAt b 0, byteAt a 1 ^^^ byteAt b 1, byteAt a 2 ^^^ byteAt b 2,
      byteAt a 3 ^^^ byteAt b 3, byteAt a 4 ^^^ byteAt b 4, byteAt a 5 ^^^ byteAt b 5,
      byteAt a 6 ^^^ byteAt b 6, byteAt a 7 ^^^ byteAt b 7] := rfl

theorem des_encrypt_cbc_fuel_some (D : DesLib) (fuel : Nat) :
    ∀ (inp : List Nat) (in_len out_len : Nat) (iv : List Nat) (s : List (List (List Nat))),
      8 ≤ out_len → out_len < 18446744073709551616 → out_len / 8 ≤ fuel →
      (des_encrypt_cbc_fuel D fuel inp in_len out_len iv s).isSome = true := by
  induction fuel with
  | zero => intro inp in_len out_len iv s h1 h2 h3; omega
  | succ n ih =>
    intro inp in_len out_len iv s h1 h2 h3
    simp only [des_encrypt_cbc_fuel, DES_BLOCK_SIZE]
    split
    · rename_i h
      have := ih (inp.drop 8) ((in_len + 18446744073709551616 - 8) % 18446744073709551616)
        ((out_len + 18446744073709551616 - 8) % 18446744073709551616)
        (block8 (D.three_des_crypt (xor8 inp iv) s)) s h.2 (by omega) (by omega)
      cases hh : des_encrypt_cbc_fuel D n (inp.drop 8)
        ((in_len + 18446744073709551616 - 8) % 18446744073709551616)
        ((out_len + 18446744073709551616 - 8) % 18446744073709551616)
        (block8 (D.three_des_crypt (xor8 inp iv) s)) s with
      | none => rw [hh] at this; simp at this
      | some r => simp
    · simp

theorem des_encrypt_cbc_fuel_succ_isSome (D : DesLib) (n : Nat) (hn : 2305843009213693952 ≤ n)
    (inp : List Nat) (in_len out_len : Nat) (iv : List Nat) (s : List (List (List Nat))) :
    (des_encrypt_cbc_fuel D (n + 1) inp in_len out_len iv s).isSome = true := by
  rw [des_encrypt_cbc_fuel]
  simp only [DES_BLOCK_SIZE]
  split
  · rename_i h
    have := des_encrypt_cbc_fuel_some D n (inp.drop 8)
        ((in_len + 18446744073709551616 - 8) % 18446744073709551616)
        ((out_len + 18446744073709551616 - 8) % 18446744073709551616)
        (block8 (D.three_des_crypt (xor8 inp iv) s)) s h.2 (by omega) (by omega)
    cases hh : des_encrypt_cbc_fuel D n (inp.drop 8)
        ((in_len + 18446744073709551616 - 8) % 18446744073709551616)
        ((out_len + 18446744073709551616 - 8) % 18446744073709551616)
        (block8 (D.three_des_crypt (xor8 inp iv) s)) s with
    | none => rw [hh] at this; simp at this
    | some r => simp
  · simp

theorem des_encrypt_cbc_fuel_isSome (D : DesLib) (inp : List Nat) (in_len out_len : Nat)
    (iv : List Nat) (s : List (List (List Nat))) :
    (des_encrypt_cbc_fuel D 2305843009213693954 inp in_len out_len iv s).isSome = true :=
  des_encrypt_cbc_fuel_succ_isSome D 2305843009213693953 (by omega) inp in_len out_len iv s

theorem des_encrypt_cbc_fuel_16 (D : DesLib) (n : Nat) (inp iv : List Nat)
    (s : List (List (List Nat))) :
    des_encrypt_cbc_fuel D (n + 1 + 1) inp 16 16 iv s
      = some (16, spec_cbc D s iv [inp, inp.drop 8]) := by
  rw [des_encrypt_cbc_fuel]
  simp only [DES_BLOCK_SIZE]
  rw [des_encrypt_cbc_fuel]
  simp [spec_cbc, DES_BLOCK_SIZE]

theorem des_encrypt_cbc_16 (D : DesLib) (inp iv : List Nat) (s : List (List (List Nat))) :
    des_encrypt_cbc D inp 16 16 iv s = (16, spec_cbc D s iv [inp, inp.drop 8]) := by
  unfold des_encrypt_cbc
  have h := des_encrypt_cbc_fuel_16 D 2305843009213693952 inp iv s
  exact (congrArg (fun o => Option.getD o (0, [])) h)


/-! ### The transport and `backend_authenticate` -/

theorem backend_apdu_dev (dev : ykneomgr_dev) (send : List Nat) (n cap : Nat) :
    (backend_apdu dev send n cap).dev =
      { dev with log := dev.log ++
          [(send.take n, dev.card (dev.log.map Prod.fst) (send.take n) cap)] } := by
  simp only [backend_apdu]; split <;> rfl

theorem backend_apdu_recv (dev : ykneomgr_dev) (send : List Nat) (n cap : Nat) :
    (backend_apdu dev send n cap).recv
      = (dev.card (dev.log.map Prod.fst) (send.take n) cap).recv := by
  simp only [backend_apdu]; split <;> rfl

theorem backend_apdu_recvlen (dev : ykneomgr_dev) (send : List Nat) (n cap : Nat) :
    (backend_apdu dev send n cap).recvlen
      = (dev.card (dev.log.map Prod.fst) (send.take n) cap).recvlen := by
  simp only [backend_apdu]; split <;> rfl

theorem retail_mac_steps (D : DesLib) (s : List (List (List Nat))) (buf : List Nat) :
    block8 (D.three_des_crypt (slice
      ((memcpy buf 0 (block8 (D.three_des_crypt
          (xor8 (block8 (D.three_des_crypt (slice buf 0 8) s)) (slice buf 8 8)) s))).set 0
        (byteAt (memcpy buf 0 (block8 (D.three_des_crypt
          (xor8 (block8 (D.three_des_crypt (slice buf 0 8) s)) (slice buf 8 8)) s))) 0 ^^^ 0x80))
      0 8) s) = spec_retail_mac D s buf := by
  unfold spec_retail_mac
  simp only []
  generalize D.three_des_crypt (xor8 (block8 (D.three_des_crypt (slice buf 0 8) s)) (slice buf 8 8)) s = X
  rw [block8_eq X]
  simp [memcpy, slice, byteAt]


theorem derive_buf_eq (a b c d : Nat) :
    ((((List.replicate 16 0).set 0 a).set 1 b).set 2 c).set 3 d
      = [a, b, c, d, 0, 0, 0, 0, 0, 0, 0, 0, 0, 0, 0, 0] := rfl

theorem card_block_eq (a b c d s0 s1 : Nat) (y : List Nat) (hy : y.length = 6) :
    memcpy (((memcpy [a, b, c, d, 0, 0, 0, 0, 0, 0, 0, 0, 0, 0, 0, 0] 0
      (slice initUpdate 5 8)).set 8 s0).set 9 s1) 10 y
      = slice initUpdate 5 8 ++ [s0, s1] ++ y := by
  simp [memcpy, slice, initUpdate, hy]

theorem take_selectApdu : List.take 13 selectApdu = selectApdu := rfl

theorem take_initUpdate : List.take 13 initUpdate = initUpdate := rfl

theorem drop_log2 {α : Type} (l : List α) (a b : α) :
    (l ++ [a] ++ [b]).drop l.length = [a, b] := by simp

theorem drop_log3 {α : Type} (l : List α) (a b c : α) :
    (l ++ [a] ++ [b] ++ [c]).drop l.length = [a, b, c] := by simp

theorem spec_cbc_derive (D : DesLib) (s : List (List (List Nat))) (a b c d : Nat) :
    spec_cbc D s (List.replicate 8 0)
      [[a, b, c, d, 0, 0, 0, 0, 0, 0, 0, 0, 0, 0, 0, 0],
        List.drop 8 [a, b, c, d, 0, 0, 0, 0, 0, 0, 0, 0, 0, 0, 0, 0]]
      = spec_cbc D s [0, 0, 0, 0, 0, 0, 0, 0]
          [[a, b, c, d, 0, 0, 0, 0], [0, 0, 0, 0, 0, 0, 0, 0]] := by
  simp [spec_cbc, xor8_eq, byteAt]

/-! ### The archive loops of `backend_applet_install` -/

theorem stat_loop_missing (cap : zip) (cs : List String) :
    ∀ t : Nat, (∃ c ∈ cs, cap.lookup c = none) → stat_loop cap cs t = none := by
  induction cs with
  | nil => intro t h; obtain ⟨c, hc, _⟩ := h; simp at hc
  | cons c cs ih =>
    intro t h
    simp only [stat_loop, zip_stat]
    cases hl : cap.lookup c with
    | none => simp
    | some x =>
      simp only [Option.map_some']
      apply ih
      obtain ⟨c1, hc1, hn⟩ := h
      rcases List.mem_cons.mp hc1 with h1 | h1
      · subst h1; rw [hl] at hn; cases hn
      · exact ⟨c1, h1, hn⟩

theorem stat_loop_present (cap : zip) (cs : List String) :
    ∀ t : Nat, (∀ c ∈ cs, (cap.lookup c).isSome = true) →
      stat_loop cap cs t = some (t + comp_total cap cs) := by
  induction cs with
  | nil => intro t _; simp [stat_loop, comp_total]
  | cons c cs ih =>
    intro t h
    simp only [stat_loop, zip_stat]
    have hc := h c (List.mem_cons_self _ _)
    cases hl : cap.lookup c with
    | none => rw [hl] at hc; simp at hc
    | some x =>
      simp only [Option.map_some']
      rw [ih _ (fun c1 h1 => h c1 (List.mem_cons_of_mem _ h1))]
      simp [comp_total, hl, Nat.add_assoc]

theorem shiftRight_and (a b i : Nat) : (a &&& b) >>> i = (a >>> i) &&& (b >>> i) := by
  apply Nat.eq_of_testBit_eq
  intro j
  simp [Nat.testBit_shiftRight, Nat.testBit_and]

theorem mask_shift_8 (s : Nat) : ((s &&& 0xff00) >>> 8) % 256 = (s / 256) % 256 := by
  rw [shiftRight_and]
  have h : (0xff00 : Nat) >>> 8 = 2 ^ 8 - 1 := by decide
  rw [h, Nat.and_pow_two_sub_one_eq_mod, Nat.shiftRight_eq_div_pow]
  norm_num

theorem mask_shift_16 (s : Nat) : ((s &&& 0xff0000) >>> 16) % 256 = (s / 65536) % 256 := by
  rw [shiftRight_and]
  have h : (0xff0000 : Nat) >>> 16 = 2 ^ 8 - 1 := by decide
  rw [h, Nat.and_pow_two_sub_one_eq_mod, Nat.shiftRight_eq_div_pow]
  norm_num

theorem mask_low (s : Nat) : (s &&& 0xff) % 256 = s % 256 := by
  have h : (0xff : Nat) = 2 ^ 8 - 1 := by decide
  rw [h, Nat.and_pow_two_sub_one_eq_mod]
  norm_num

theorem lfdb_header_eq (s : Nat) (h : s < 0xffffff) :
    lfdb_header s
      = some (0xc4 :: spec_length_encoding s, s + (1 + (spec_length_encoding s).length)) := by
  unfold lfdb_header spec_length_encoding
  simp only [mask_shift_8, mask_shift_16, mask_low, big_endian]
  split_ifs with h1 h2 h3
  · simp; omega
  · simp; omega
  · simp
  · simp

theorem lfdb_header_none (s : Nat) (h : 0xffffff ≤ s) : lfdb_header s = none := by
  unfold lfdb_header
  split_ifs <;> first | omega | rfl


theorem byteAt_append_right (a b : List Nat) (i : Nat) :
    byteAt (a ++ b) (a.length + i) = byteAt b i := by
  simp [byteAt, List.getD_eq_getElem?_getD, List.getElem?_append_right]

theorem zip_fread_all (cap : zip) (c : String) (n : Nat)
    (h : ((cap.lookup c).getD []).length ≤ n) :
    zip_fread cap c n = (cap.lookup c).getD [] := by
  unfold zip_fread
  exact List.take_of_length_le h

theorem comp_total_cons (cap : zip) (c : String) (cs : List String) :
    comp_total cap (c :: cs) = ((cap.lookup c).getD []).length + comp_total cap cs := by
  simp [comp_total]

theorem comp_bytes_cons (cap : zip) (c : String) (cs : List String) :
    comp_bytes cap (c :: cs) = (cap.lookup c).getD [] ++ comp_bytes cap cs := by
  simp [comp_bytes]

theorem comp_bytes_length (cap : zip) (cs : List String) :
    (comp_bytes cap cs).length = comp_total cap cs := by
  induction cs with
  | nil => simp [comp_bytes, comp_total]
  | cons c cs ih => rw [comp_bytes_cons, comp_total_cons, List.length_append, ih]

theorem read_loop_buf (cap : zip) (n : Nat) (cs : List String) :
    ∀ st st1 : cap_state, st.buf.length + comp_total cap cs ≤ n →
      read_loop cap n cs st = some st1 → st1.buf = st.buf ++ comp_bytes cap cs := by
  induction cs with
  | nil =>
    intro st st1 _ h
    simp only [read_loop, Option.some.injEq] at h
    subst h
    simp [comp_bytes]
  | cons c cs ih =>
    intro st st1 hle h
    rw [comp_total_cons] at hle
    rw [comp_bytes_cons]
    simp only [read_loop] at h
    rw [zip_fread_all cap c _ (by omega)] at h
    split_ifs at h with h1 h2 h3
    · have := ih _ st1 (by simp only [List.length_append]; omega) h
      simpa [List.append_assoc] using this
    · have := ih _ st1 (by simp only [List.length_append]; omega) h
      simpa [List.append_assoc] using this
    · have := ih _ st1 (by simp only [List.length_append]; omega) h
      simpa [List.append_assoc] using this

theorem read_loop_some (cap : zip) (n : Nat) (cs : List String)
    (happ : byteAt ((cap.lookup "Applet.cap").getD []) 3 = 1) :
    ∀ st : cap_state, st.buf.length + comp_total cap cs ≤ n →
      ∃ st1, read_loop cap n cs st = some st1 := by
  induction cs with
  | nil => intro st _; exact ⟨st, rfl⟩
  | cons c cs ih =>
    intro st hle
    rw [comp_total_cons] at hle
    simp only [read_loop]
    rw [zip_fread_all cap c _ (by omega)]
    split_ifs with h1 h2 h3
    · exact ih _ (by simp only [List.length_append]; omega)
    · exfalso
      rw [h2, byteAt_append_right] at h3
      exact h3 happ
    · exact ih _ (by simp only [List.length_append]; omega)
    · exact ih _ (by simp only [List.length_append]; omega)

theorem read_loop_applet (cap : zip) (n : Nat) (cs : List String)
    (happ : byteAt ((cap.lookup "Applet.cap").getD []) 3 ≠ 1) :
    ∀ st : cap_state, "Applet.cap" ∈ cs → st.buf.length + comp_total cap cs ≤ n →
      read_loop cap n cs st = none := by
  induction cs with
  | nil => intro st h; simp at h
  | cons c cs ih =>
    intro st hmem hle
    rw [comp_total_cons] at hle
    simp only [read_loop]
    rw [zip_fread_all cap c _ (by omega)]
    have hc : c = "Applet.cap" ∨ "Applet.cap" ∈ cs := by
      rcases List.mem_cons.mp hmem with h | h
      · exact Or.inl h.symm
      · exact Or.inr h
    split_ifs with h1 h2 h3
    · rcases hc with h | h
      · rw [h] at h1; exact absurd h1 (by decide)
      · exact ih _ h (by simp only [List.length_append]; omega)
    · rfl
    · exfalso
      rw [h2, byteAt_append_right] at h3
      exact h3 happ
    · rcases hc with h | h
      · exact absurd h h2
      · exact ih _ h (by simp only [List.length_append]; omega)


/-! ### The load loop -/

theorem all_success_accepts (card : List (List Nat) → List Nat → Nat → Reply)
    (h : all_success card) : accepts card := by
  intro hist cmd n hh
  exact hh.1 (h hist cmd n).2.1

theorem load_loop_ok (buf : List Nat) (n : Nat) (js : List Nat) :
    ∀ (p : Nat) (dev : ykneomgr_dev), accepts dev.card →
      (load_loop buf n js p dev).1 = true ∧ (load_loop buf n js p dev).2.card = dev.card ∧
      (load_loop buf n js p dev).2.log.map Prod.fst
        = dev.log.map Prod.fst ++ load_cmds buf n js p := by
  induction js with
  | nil => intro p dev _; simp [load_loop, load_cmds]
  | cons j js ih =>
    intro p dev hacc
    simp only [load_loop, backend_apdu_dev, backend_apdu_recv, backend_apdu_recvlen]
    rw [if_neg (hacc _ _ _)]
    have := ih (p + if 0xff > n - p then n - p else 0xff)
      { dev with log := dev.log ++ [((List.take ((if 0xff > n - p then n - p else 0xff) + 5)
          ([0x80, 0xe8, if 0xff > n - p then 0x80 else 0, j % 256,
            (if 0xff > n - p then n - p else 0xff) % 256]
            ++ slice buf p (if 0xff > n - p then n - p else 0xff))),
          dev.card (dev.log.map Prod.fst) (List.take ((if 0xff > n - p then n - p else 0xff) + 5)
          ([0x80, 0xe8, if 0xff > n - p then 0x80 else 0, j % 256,
            (if 0xff > n - p then n - p else 0xff) % 256]
            ++ slice buf p (if 0xff > n - p then n - p else 0xff))) 256)] } hacc
    refine ⟨this.1, this.2.1, ?_⟩
    rw [this.2.2]
    simp only [load_cmds, List.map_append, List.map_cons, List.map_nil, List.append_assoc,
      List.singleton_append]
    congr 2
    apply List.take_of_length_le
    simp [slice_length]

theorem load_cmds_length (buf : List Nat) (n : Nat) (js : List Nat) :
    ∀ p : Nat, (load_cmds buf n js p).length = js.length := by
  induction js with
  | nil => intro p; rfl
  | cons j js ih => intro p; simp [load_cmds, ih]

theorem load_cmds_shape (buf : List Nat) (n : Nat) (js : List Nat) :
    ∀ p : Nat, ∀ c ∈ load_cmds buf n js p,
      c.getD 1 0 = 0xe8 ∧ (c.drop 5).length ≤ 255 ∧ c.getD 4 0 = (c.drop 5).length := by
  induction js with
  | nil => intro p c hc; simp [load_cmds] at hc
  | cons j js ih =>
    intro p c hc
    simp only [load_cmds, List.mem_cons] at hc
    rcases hc with h | h
    · subst h
      simp only [List.cons_append, List.nil_append, List.getD_cons_succ, List.getD_cons_zero,
        List.drop_succ_cons, List.drop_zero, slice_length, true_and]
      split_ifs with h1
      · constructor
        · omega
        · omega
      · simp
    · exact ih _ c h

theorem load_cmds_p1 (buf : List Nat) (n : Nat) (k : Nat) :
    ∀ j p : Nat, p = min (255 * j) n → j + k = n / 255 + 1 →
      (load_cmds buf n (List.range' j k) p).map (fun c => c.getD 2 0)
        = List.replicate (k - 1) 0 ++ (if k = 0 then [] else [0x80]) := by
  induction k with
  | zero => intro j p _ _; simp [load_cmds]
  | succ k ih =>
    intro j p hp hj
    simp only [List.range'_succ, load_cmds, List.map_cons, List.cons_append, List.nil_append,
      List.getD_cons_succ, List.getD_cons_zero]
    rw [ih (j + 1) _ (by split_ifs <;> omega) (by omega)]
    by_cases hk : k = 0
    · subst hk
      have : 0xff > n - p := by omega
      simp [this]
    · have : ¬ 0xff > n - p := by omega
      simp only [this, if_false, hk, Nat.add_sub_cancel]
      obtain ⟨m, rfl⟩ := Nat.exists_eq_succ_of_ne_zero hk
      simp [List.replicate_succ]

theorem slice_in_range (buf : List Nat) (p k : Nat) (h : p + k ≤ buf.length) :
    slice buf p k = (buf.drop p).take k := by
  unfold slice
  rw [List.take_append_of_le_length]
  simp only [List.length_drop]
  omega

theorem load_cmds_data (buf : List Nat) (n : Nat) (hn : buf.length = n) (k : Nat) :
    ∀ j p : Nat, p = min (255 * j) n →
      ((load_cmds buf n (List.range' j k) p).map (fun c => c.drop 5)).flatten
        = (buf.drop p).take (min (255 * (j + k)) n - p) := by
  induction k with
  | zero =>
    intro j p hp
    simp only [List.range'_zero, load_cmds, List.map_nil, List.flatten_nil, Nat.add_zero]
    rw [show min (255 * j) n - p = 0 by omega]
    simp
  | succ k ih =>
    intro j p hp
    simp only [List.range'_succ, load_cmds, List.map_cons, List.cons_append, List.nil_append,
      List.drop_succ_cons, List.drop_zero, List.flatten_cons]
    rw [ih (j + 1) _ (by split_ifs <;> omega)]
    rw [slice_in_range buf p _ (by split_ifs <;> omega)]
    have hsplit : min (255 * (j + (k + 1))) n - p
        = (if 0xff > n - p then n - p else 0xff)
          + (min (255 * (j + 1 + k)) n - (p + if 0xff > n - p then n - p else 0xff)) := by
      split_ifs <;> omega
    rw [hsplit, List.take_add, List.drop_drop]

/-! ### A run of `backend_applet_install` in which no reply is rejected -/

theorem spec_lfdb_length (cap : zip) :
    (spec_lfdb cap).length
      = comp_total cap components
        + (1 + (spec_length_encoding (comp_total cap components)).length) := by
  simp [spec_lfdb, comp_bytes_length]
  omega

theorem install_run (dev : ykneomgr_dev) (cap : zip)
    (hall : ∀ c ∈ components, (cap.lookup c).isSome = true)
    (hsz : comp_total cap components < 0xffffff)
    (happ : byteAt ((cap.lookup "Applet.cap").getD []) 3 = 1)
    (hacc : accepts dev.card) :
    ∃ c1 c3 : List Nat, c1.getD 1 0 = 0xe6 ∧ c3.getD 1 0 = 0xe6 ∧
      (backend_applet_install dev (some cap)).1 = YKNEOMGR_OK ∧
      sent dev (backend_applet_install dev (some cap)).2
        = c1 :: load_cmds (spec_lfdb cap) (spec_lfdb cap).length
            (List.range ((spec_lfdb cap).length / 255 + 1)) 0 ++ [c3] := by
  have hstat := stat_loop_present cap components 0 hall
  rw [Nat.zero_add] at hstat
  have hhdr := lfdb_header_eq _ hsz
  rw [← spec_lfdb_length] at hhdr
  obtain ⟨st, hst⟩ := read_loop_some cap (spec_lfdb cap).length components happ
    ⟨0xc4 :: spec_length_encoding (comp_total cap components), 0, 0, 0, 0⟩
    (by rw [spec_lfdb_length]; simp only [List.length_cons]; omega)
  have hbuf : st.buf = spec_lfdb cap := by
    rw [read_loop_buf cap _ components _ st
      (by rw [spec_lfdb_length]; simp only [List.length_cons]; omega) hst]
    simp [spec_lfdb]
  unfold backend_applet_install
  simp only [hstat, hhdr, hst, hbuf]
  generalize hc1 : ([0x80, 0xe6, 0x02, 0, (1 + st.packaidlen + 1 + 8 + 1 + 1 + 1) % 256,
      st.packaidlen % 256] ++ slice (spec_lfdb cap) st.packaid st.packaidlen ++ [8] ++ sdAid
      ++ [0, 0, 0]) = c1
  generalize hc3 : ([0x80, 0xe6, 0x0c, 0,
      (1 + st.packaidlen + 1 + st.appaidlen + 1 + st.appaidlen + 1 + 1 + 3 + 1 + 1) % 256,
      st.packaidlen % 256] ++ slice (spec_lfdb cap) st.packaid st.packaidlen
      ++ [st.appaidlen % 256] ++ slice (spec_lfdb cap) st.appaid st.appaidlen
      ++ [st.appaidlen % 256] ++ slice (spec_lfdb cap) st.appaid st.appaidlen
      ++ [1, 0, 3, 0xc9, 0x01, 0, 0]) = c3
  have h1 : c1.getD 1 0 = 0xe6 := by subst hc1; rfl
  have h3 : c3.getD 1 0 = 0xe6 := by subst hc3; rfl
  refine ⟨c1, c3, h1, h3, ?_⟩
  simp only [backend_apdu_dev, backend_apdu_recv, backend_apdu_recvlen, List.take_length]
  rw [if_neg (hacc _ _ _)]
  generalize dev.card (List.map Prod.fst dev.log) c1 256 = r1
  obtain ⟨hl1, hl2, hl3⟩ := load_loop_ok (spec_lfdb cap) (spec_lfdb cap).length
    (List.range ((spec_lfdb cap).length / 255 + 1)) 0
    { dev with log := dev.log ++ [(c1, r1)] } hacc
  generalize load_loop (spec_lfdb cap) (spec_lfdb cap).length
    (List.range ((spec_lfdb cap).length / 255 + 1)) 0
    { dev with log := dev.log ++ [(c1, r1)] } = l at hl1 hl2 hl3 ⊢
  simp only [hl1, Bool.true_eq_false, if_false]
  have hacc2 : accepts l.2.card := by rw [hl2]; exact hacc
  rw [if_neg (hacc2 _ _ _)]
  refine ⟨rfl, ?_⟩
  simp only [sent, exchanges, List.map_drop, List.map_append, hl3, List.map_cons, List.map_nil]
  rw [List.append_assoc, List.append_assoc, List.drop_left']
  · simp
  · simp


theorem cardOk_all_success : all_success cardOk := by
  intro hist cmd n
  exact ⟨rfl, rfl, rfl, rfl⟩

theorem cap252_present : ∀ c ∈ components, (cap252.lookup c).isSome = true := by
  simp [components, cap252, List.lookup, -List.reduceReplicate]

theorem cap252_total : comp_total cap252 components = 252 := by
  simp [comp_total, components, cap252, List.lookup, -List.reduceReplicate]

theorem cap252_applet : byteAt ((cap252.lookup "Applet.cap").getD []) 3 = 1 := by
  simp [cap252, List.lookup, byteAt, -List.reduceReplicate]

theorem load_apdus_run (dev : ykneomgr_dev) (cap : zip)
    (hall : ∀ c ∈ components, (cap.lookup c).isSome = true)
    (hsz : comp_total cap components < 0xffffff)
    (happ : byteAt ((cap.lookup "Applet.cap").getD []) 3 = 1)
    (hacc : accepts dev.card) :
    load_apdus dev (backend_applet_install dev (some cap)).2
      = load_cmds (spec_lfdb cap) (spec_lfdb cap).length
          (List.range ((spec_lfdb cap).length / 255 + 1)) 0 := by
  obtain ⟨c1, c3, h1, h3, _, hs⟩ := install_run dev cap hall hsz happ hacc
  unfold load_apdus
  rw [hs, List.filter_append, List.filter_cons]
  have e1 : decide (c1.getD 1 0 = 0xe8) = false := by rw [h1]; decide
  have e3 : List.filter (fun c => decide (c.getD 1 0 = 0xe8)) [c3] = [] := by
    rw [List.filter_cons, h3]; simp
  rw [e1, e3, List.append_nil]
  simp only [Bool.false_eq_true, if_false]
  rw [List.filter_eq_self]
  intro c hc
  exact decide_eq_true (load_cmds_shape _ _ _ _ c hc).1

theorem install_no_header (dev : ykneomgr_dev) (cap : zip)
    (hall : ∀ c ∈ components, (cap.lookup c).isSome = true)
    (hsz : 0xffffff ≤ comp_total cap components) :
    backend_applet_install dev (some cap) = (YKNEOMGR_BACKEND_ERROR, dev) := by
  have hstat := stat_loop_present cap components 0 hall
  rw [Nat.zero_add] at hstat
  unfold backend_applet_install
  simp only [hstat, lfdb_header_none _ hsz]

/-- For a load file data block of `N` bytes that is loaded with all replies
successful, the number of LOAD commands is `N / 255 + 1`: it is ceil(N/255)
when `N` is not a multiple of 255, and one more than that when it is. -/
theorem load_count (dev : ykneomgr_dev) (cap : zip)
    (hall : ∀ c ∈ components, (cap.lookup c).isSome = true)
    (hsz : comp_total cap components < 0xffffff)
    (happ : byteAt ((cap.lookup "Applet.cap").getD []) 3 = 1)
    (hok : all_success dev.card) :
    (load_apdus dev (backend_applet_install dev (some cap)).2).length
        = (spec_lfdb cap).length / 255 + 1
    ∧ ((spec_lfdb cap).length % 255 ≠ 0 →
        (load_apdus dev (backend_applet_install dev (some cap)).2).length
          = ceil_div (spec_lfdb cap).length 255)
    ∧ ((spec_lfdb cap).length % 255 = 0 →
        (load_apdus dev (backend_applet_install dev (some cap)).2).length
          = ceil_div (spec_lfdb cap).length 255 + 1) := by
  rw [load_apdus_run dev cap hall hsz happ (all_success_accepts _ hok), load_cmds_length,
    List.length_range]
  unfold ceil_div
  refine ⟨rfl, ?_, ?_⟩ <;> intro h <;> omega

/-! ### The straight-line part of `backend_authenticate` -/

theorem authenticate_normal_form (D : DesLib) (dev : ykneomgr_dev) (key : List Nat) :
    backend_authenticate D dev key =
      (let a1 := backend_apdu dev selectApdu 13 256
       let a2 := backend_apdu a1.dev initUpdate 13 a1.recvlen
       let v := authenticate_vars D key a2.recv
       if a2.recvlen ≠ 30 then (YKNEOMGR_BACKEND_ERROR, a2.dev) else
       if v.card_cryptogram ≠ slice a2.recv 20 DES_BLOCK_SIZE then
         (YKNEOMGR_BACKEND_ERROR, a2.dev) else
       let a3 := backend_apdu a2.dev v.send (5 + 16) a2.recvlen
       if a3.recvlen = 2 ∧ byteAt a3.recv 0 = 0x90 ∧ byteAt a3.recv 1 = 0x00 then
         (YKNEOMGR_OK, a3.dev)
       else (YKNEOMGR_BACKEND_ERROR, a3.dev)) := rfl

theorem vars_sessionkey (D : DesLib) (key recv : List Nat) :
    (authenticate_vars D key recv).sessionkey
      = spec_derive D key 0x01 0x82 (byteAt recv 12) (byteAt recv 13) := by
  simp only [authenticate_vars, derive_buf_eq, des_encrypt_cbc_16, spec_cbc_derive, spec_derive,
    spec_schedule]

theorem vars_mackey (D : DesLib) (key recv : List Nat) :
    (authenticate_vars D key recv).mackey
      = spec_derive D key 0x01 0x01 (byteAt recv 12) (byteAt recv 13) := by
  simp only [authenticate_vars, derive_buf_eq, des_encrypt_cbc_16, spec_cbc_derive, spec_derive,
    spec_schedule]

theorem vars_card_cryptogram (D : DesLib) (key recv : List Nat) :
    (authenticate_vars D key recv).card_cryptogram = spec_card_cryptogram D key recv := by
  simp only [authenticate_vars, derive_buf_eq, des_encrypt_cbc_16, retail_mac_steps,
    card_block_eq _ _ _ _ _ _ _ (slice_length _ _ _), spec_cbc_derive, spec_card_cryptogram,
    spec_derive, spec_schedule]

theorem host_block_eq (b y hc : List Nat) (s0 s1 : Nat) (hb : b.length = 16)
    (hy : y.length = 6) (hhc : hc.length = 8) :
    memcpy (memcpy ((b.set 0 s0).set 1 s1) 2 y) 8 hc = [s0, s1] ++ y ++ hc := by
  rcases b with _ | ⟨b0, _ | ⟨b1, t⟩⟩
  · simp at hb
  · simp at hb
  · have ht : t.length = 14 := by simpa using hb
    simp [memcpy, hy, hhc, ht, List.take_append_eq_append_take, List.drop_append_eq_append_drop]

theorem host_block_after_card (a y2 y hc x : List Nat) (t0 t1 v s0 s1 : Nat)
    (ha : a.length = 8) (hy2 : y2.length = 6) (hy : y.length = 6) (hhc : hc.length = 8) :
    memcpy (memcpy ((((memcpy (a ++ [t0, t1] ++ y2) 0 (block8 x)).set 0 v).set 0 s0).set 1 s1)
      2 y) 8 hc = [s0, s1] ++ y ++ hc :=
  host_block_eq _ _ _ _ _ (by simp [memcpy, ha, hy2, block8_eq]) hy hhc

theorem vars_host_cryptogram (D : DesLib) (key recv : List Nat) :
    (authenticate_vars D key recv).host_cryptogram
      = spec_retail_mac D
          (spec_schedule D (spec_derive D key 0x01 0x82 (byteAt recv 12) (byteAt recv 13)))
          ([byteAt recv 12, byteAt recv 13] ++ slice recv 14 6 ++ slice initUpdate 5 8) := by
  simp only [authenticate_vars, derive_buf_eq, des_encrypt_cbc_16, retail_mac_steps,
    card_block_eq _ _ _ _ _ _ _ (slice_length _ _ _),
    host_block_after_card _ _ _ _ _ _ _ _ _ _ (slice_length _ _ _) (slice_length _ _ _)
      (slice_length _ _ _) (slice_length _ _ _),
    spec_cbc_derive, spec_derive, spec_schedule]

theorem send_start :
    (((((List.replicate 256 0).set 0 0x84).set 1 0x82).set 2 0x00).set 3 0x00).set 4 0x10
      = [0x84, 0x82, 0x00, 0x00, 0x10] ++ List.replicate 251 0 := by
  have h : List.replicate 256 (0 : Nat) = [0, 0, 0, 0, 0] ++ List.replicate 251 0 := by
    rw [show (256 : Nat) = 5 + 251 from rfl, List.replicate_add]; rfl
  rw [h]; rfl

theorem block8_length (x : List Nat) : (block8 x).length = 8 := by
  simp [block8]

theorem send_host (h0 h1 h2 h3 h4 h5 h6 h7 : Nat) :
    memcpy ([0x84, 0x82, 0x00, 0x00, 0x10] ++ List.replicate 251 0) 5
        (slice [h0, h1, h2, h3, h4, h5, h6, h7] 0 8)
      = [0x84, 0x82, 0x00, 0x00, 0x10, h0, h1, h2, h3, h4, h5, h6, h7, 0, 0, 0]
        ++ List.replicate 240 0 := by
  have h : List.replicate 251 (0 : Nat) = List.replicate 8 0 ++ ([0, 0, 0] ++ List.replicate 240 0) := by
    rw [show (251 : Nat) = 8 + (3 + 240) from rfl, List.replicate_add, List.replicate_add]; rfl
  rw [h]; rfl

theorem send_mac (l mac : List Nat) (hl : l.length = 13) (hm : mac.length = 8) (z : List Nat) :
    List.take 21 (memcpy (l ++ 0 :: 0 :: 0 :: z) (5 + 8) mac) = l ++ mac := by
  simp [memcpy, hl, hm, List.take_append_eq_append_take]

theorem xor_pad (e : List Nat) (h3 h4 h5 h6 h7 : Nat) :
    (xor8 (block8 e) [h3, h4, h5, h6, h7, 0, 0, 0]).set 5
        (byteAt (xor8 (block8 e) [h3, h4, h5, h6, h7, 0, 0, 0]) 5 ^^^ 0x80)
      = xor8 (block8 e) [h3, h4, h5, h6, h7, 0x80, 0, 0] := by
  simp [xor8_eq, block8_eq, byteAt]

theorem send_layout (D : DesLib) (mk hc : List Nat) (h : hc.length = 8) :
    List.take 21 (authenticate_send D mk hc)
      = [0x84, 0x82, 0x00, 0x00, 0x10] ++ hc
        ++ spec_command_mac D (spec_schedule D mk) ([0x84, 0x82, 0x00, 0x00, 0x10] ++ hc) := by
  rcases hc with _ | ⟨h0, _ | ⟨h1, _ | ⟨h2, _ | ⟨h3, _ | ⟨h4, _ | ⟨h5, _ | ⟨h6, _ | ⟨h7, t⟩⟩⟩⟩⟩⟩⟩⟩ <;>
    simp at h
  subst h
  simp only [authenticate_send, send_start, send_host, DES_BLOCK_SIZE]
  have e1 : slice ([0x84, 0x82, 0x00, 0x00, 0x10, h0, h1, h2, h3, h4, h5, h6, h7, 0, 0, 0]
      ++ List.replicate 240 0) 0 8 = [0x84, 0x82, 0x00, 0x00, 0x10, h0, h1, h2] := rfl
  have e2 : slice ([0x84, 0x82, 0x00, 0x00, 0x10, h0, h1, h2, h3, h4, h5, h6, h7, 0, 0, 0]
      ++ List.replicate 240 0) 8 8 = [h3, h4, h5, h6, h7, 0, 0, 0] := rfl
  rw [e1, e2, xor_pad]
  have e3 : ([0x84, 0x82, 0x00, 0x00, 0x10, h0, h1, h2, h3, h4, h5, h6, h7, 0, 0, 0]
      ++ List.replicate 240 0 : List Nat)
      = [0x84, 0x82, 0x00, 0x00, 0x10, h0, h1, h2, h3, h4, h5, h6, h7]
        ++ 0 :: 0 :: 0 :: List.replicate 240 0 := rfl
  rw [e3, send_mac [0x84, 0x82, 0x00, 0x00, 0x10, h0, h1, h2, h3, h4, h5, h6, h7] _ rfl
    (block8_length _)]
  simp [spec_command_mac, spec_pad, spec_schedule]

theorem spec_retail_mac_length (D : DesLib) (s : List (List (List Nat))) (b : List Nat) :
    (spec_retail_mac D s b).length = 8 := by
  simp [spec_retail_mac, block8_length]

theorem ite_snd {α β : Type} (c : Prop) [Decidable c] (a b : α) (d : β) :
    (if c then (a, d) else (b, d)).2 = d := by
  split <;> rfl

theorem block8_of_bytes (a : List Nat) (ha : a.length = 8) (hb : ∀ x ∈ a, x < 256) :
    block8 a = a := by
  rcases a with _ | ⟨h0, _ | ⟨h1, _ | ⟨h2, _ | ⟨h3, _ | ⟨h4, _ | ⟨h5, _ | ⟨h6, _ | ⟨h7, t⟩⟩⟩⟩⟩⟩⟩⟩ <;>
    simp at ha
  subst ha
  simp only [List.mem_cons, List.mem_singleton, forall_eq_or_imp, forall_eq] at hb
  simp [block8_eq, byteAt, Nat.mod_eq_of_lt, hb]

/-! ### `des_encrypt_cbc` over several blocks -/

theorem xor8_take (inp iv : List Nat) : xor8 (inp.take 8) iv = xor8 inp iv := by
  simp [xor8_eq, byteAt, List.getD_eq_getElem?_getD, List.getElem?_take]

theorem cbc_blocks_succ (inp : List Nat) (n : Nat) :
    cbc_blocks inp (n + 1) = inp.take 8 :: cbc_blocks (inp.drop 8) n := by
  simp only [cbc_blocks, List.range_succ_eq_map, List.map_cons, List.map_map, Nat.mul_zero,
    List.drop_zero]
  congr 1
  apply List.map_congr_left
  intro k _
  simp only [Function.comp, List.drop_drop]
  congr 2
  omega

theorem des_encrypt_cbc_fuel_blocks (D : DesLib) (s : List (List (List Nat))) (n : Nat) :
    ∀ (fuel : Nat) (inp iv : List Nat) (out_len : Nat), n + 1 ≤ fuel → 8 * (n + 1) ≤ out_len →
      out_len < 18446744073709551616 →
      des_encrypt_cbc_fuel D fuel inp (8 * (n + 1)) out_len iv s
        = some (8 * (n + 1), spec_cbc D s iv (cbc_blocks inp (n + 1))) := by
  induction n with
  | zero =>
    intro fuel inp iv out_len hf hcap hsz
    obtain ⟨f, rfl⟩ := Nat.exists_eq_succ_of_ne_zero (by omega : fuel ≠ 0)
    rw [des_encrypt_cbc_fuel]
    simp [DES_BLOCK_SIZE, cbc_blocks, spec_cbc, xor8_take]
  | succ n ih =>
    intro fuel inp iv out_len hf hcap hsz
    obtain ⟨f, rfl⟩ := Nat.exists_eq_succ_of_ne_zero (by omega : fuel ≠ 0)
    rw [des_encrypt_cbc_fuel]
    simp only [DES_BLOCK_SIZE]
    have e1 : (8 * (n + 1 + 1) + 18446744073709551616 - 8) % 18446744073709551616
        = 8 * (n + 1) := by omega
    have e2 : (out_len + 18446744073709551616 - 8) % 18446744073709551616 = out_len - 8 := by
      omega
    rw [e1, e2, if_pos (by omega), ih f _ _ _ (by omega) (by omega) (by omega)]
    simp only [cbc_blocks_succ inp (n + 1), spec_cbc, xor8_take]
    rw [show 8 + 8 * (n + 1) = 8 * (n + 1 + 1) by omega]

/-! ### The INSTALL commands and the block numbers of the LOAD commands -/

theorem slice_mid (a x b : List Nat) : slice (a ++ x ++ b) a.length x.length = x := by
  simp [slice]

theorem read_loop_keeps_pack (cap : zip) (n : Nat) (cs : List String)
    (hcs : "Header.cap" ∉ cs) :
    ∀ st st1 : cap_state, read_loop cap n cs st = some st1 →
      st1.packaidlen = st.packaidlen ∧ st1.packaid = st.packaid := by
  induction cs with
  | nil =>
    intro st st1 h
    simp only [read_loop, Option.some.injEq] at h
    subst h
    exact ⟨rfl, rfl⟩
  | cons c cs ih =>
    intro st st1 h
    have hc : c ≠ "Header.cap" := fun e => hcs (e ▸ List.mem_cons_self _ _)
    have hcs2 : "Header.cap" ∉ cs := fun e => hcs (List.mem_cons_of_mem _ e)
    simp only [read_loop, if_neg hc] at h
    split_ifs at h
    · have := ih hcs2 _ _ h
      exact this
    · have := ih hcs2 _ _ h
      exact this

theorem read_loop_keeps_app (cap : zip) (n : Nat) (cs : List String)
    (hcs : "Applet.cap" ∉ cs) :
    ∀ st st1 : cap_state, read_loop cap n cs st = some st1 →
      st1.appaidlen = st.appaidlen ∧ st1.appaid = st.appaid := by
  induction cs with
  | nil =>
    intro st st1 h
    simp only [read_loop, Option.some.injEq] at h
    subst h
    exact ⟨rfl, rfl⟩
  | cons c cs ih =>
    intro st st1 h
    have hc : c ≠ "Applet.cap" := fun e => hcs (e ▸ List.mem_cons_self _ _)
    have hcs2 : "Applet.cap" ∉ cs := fun e => hcs (List.mem_cons_of_mem _ e)
    simp only [read_loop, if_neg hc] at h
    split_ifs at h
    · have := ih hcs2 _ _ h
      exact this
    · have := ih hcs2 _ _ h
      exact this

theorem read_loop_fields (cap : zip) (n : Nat) (st st1 : cap_state)
    (hle : st.buf.length + comp_total cap components ≤ n)
    (h : read_loop cap n components st = some st1) :
    st1.packaidlen = byteAt ((cap.lookup "Header.cap").getD []) 12
    ∧ st1.packaid = st.buf.length + 13
    ∧ st1.appaidlen = byteAt ((cap.lookup "Applet.cap").getD []) 4
    ∧ st1.appaid = st.buf.length + ((cap.lookup "Header.cap").getD []).length
        + ((cap.lookup "Directory.cap").getD []).length
        + ((cap.lookup "Import.cap").getD []).length + 5 := by
  simp only [components, comp_total_cons] at hle h
  simp only [comp_total, List.map_nil, List.sum_nil, Nat.add_zero] at hle
  rw [read_loop, if_pos rfl, zip_fread_all cap _ _ (by omega)] at h
  rw [read_loop, if_neg (by decide), if_neg (by decide), zip_fread_all cap _ _
    (by simp only [List.length_append]; omega)] at h
  rw [read_loop, if_neg (by decide), if_neg (by decide), zip_fread_all cap _ _
    (by simp only [List.length_append]; omega)] at h
  rw [read_loop, if_neg (by decide), if_pos rfl, zip_fread_all cap _ _
    (by simp only [List.length_append]; omega)] at h
  split_ifs at h
  have hp := read_loop_keeps_pack cap n _ (by decide) _ _ h
  have ha := read_loop_keeps_app cap n _ (by decide) _ _ h
  simp only at hp ha
  refine ⟨?_, hp.2, ?_, ?_⟩
  · rw [hp.1, byteAt_append_right]
  · rw [ha.1, byteAt_append_right]
  · rw [ha.2]
    simp only [List.length_append]

theorem install_cmds (dev : ykneomgr_dev) (cap : zip)
    (hall : ∀ c ∈ components, (cap.lookup c).isSome = true)
    (hsz : comp_total cap components < 0xffffff)
    (happ : byteAt ((cap.lookup "Applet.cap").getD []) 3 = 1)
    (hacc : accepts dev.card) :
    ∃ st : cap_state,
      read_loop cap (spec_lfdb cap).length components
        ⟨0xc4 :: spec_length_encoding (comp_total cap components), 0, 0, 0, 0⟩ = some st ∧
      sent dev (backend_applet_install dev (some cap)).2
        = ([0x80, 0xe6, 0x02, 0, (1 + st.packaidlen + 1 + 8 + 1 + 1 + 1) % 256,
              st.packaidlen % 256] ++ slice (spec_lfdb cap) st.packaid st.packaidlen ++ [8]
              ++ sdAid ++ [0, 0, 0])
          :: load_cmds (spec_lfdb cap) (spec_lfdb cap).length
              (List.range ((spec_lfdb cap).length / 255 + 1)) 0
          ++ [[0x80, 0xe6, 0x0c, 0,
              (1 + st.packaidlen + 1 + st.appaidlen + 1 + st.appaidlen + 1 + 1 + 3 + 1 + 1) % 256,
              st.packaidlen % 256] ++ slice (spec_lfdb cap) st.packaid st.packaidlen
              ++ [st.appaidlen % 256] ++ slice (spec_lfdb cap) st.appaid st.appaidlen
              ++ [st.appaidlen % 256] ++ slice (spec_lfdb cap) st.appaid st.appaidlen
              ++ [1, 0, 3, 0xc9, 0x01, 0, 0]] := by
  have hstat := stat_loop_present cap components 0 hall
  rw [Nat.zero_add] at hstat
  have hhdr := lfdb_header_eq _ hsz
  rw [← spec_lfdb_length] at hhdr
  obtain ⟨st, hst⟩ := read_loop_some cap (spec_lfdb cap).length components happ
    ⟨0xc4 :: spec_length_encoding (comp_total cap components), 0, 0, 0, 0⟩
    (by rw [spec_lfdb_length]; simp only [List.length_cons]; omega)
  have hbuf : st.buf = spec_lfdb cap := by
    rw [read_loop_buf cap _ components _ st
      (by rw [spec_lfdb_length]; simp only [List.length_cons]; omega) hst]
    simp [spec_lfdb]
  refine ⟨st, hst, ?_⟩
  unfold backend_applet_install
  simp only [hstat, hhdr, hst, hbuf]
  generalize ([0x80, 0xe6, 0x02, 0, (1 + st.packaidlen + 1 + 8 + 1 + 1 + 1) % 256,
      st.packaidlen % 256] ++ slice (spec_lfdb cap) st.packaid st.packaidlen ++ [8] ++ sdAid
      ++ [0, 0, 0]) = c1
  generalize ([0x80, 0xe6, 0x0c, 0,
      (1 + st.packaidlen + 1 + st.appaidlen + 1 + st.appaidlen + 1 + 1 + 3 + 1 + 1) % 256,
      st.packaidlen % 256] ++ slice (spec_lfdb cap) st.packaid st.packaidlen
      ++ [st.appaidlen % 256] ++ slice (spec_lfdb cap) st.appaid st.appaidlen
      ++ [st.appaidlen % 256] ++ slice (spec_lfdb cap) st.appaid st.appaidlen
      ++ [1, 0, 3, 0xc9, 0x01, 0, 0]) = c3
  simp only [backend_apdu_dev, backend_apdu_recv, backend_apdu_recvlen, List.take_length]
  rw [if_neg (hacc _ _ _)]
  generalize dev.card (List.map Prod.fst dev.log) c1 256 = r1
  obtain ⟨hl1, hl2, hl3⟩ := load_loop_ok (spec_lfdb cap) (spec_lfdb cap).length
    (List.range ((spec_lfdb cap).length / 255 + 1)) 0
    { dev with log := dev.log ++ [(c1, r1)] } hacc
  generalize load_loop (spec_lfdb cap) (spec_lfdb cap).length
    (List.range ((spec_lfdb cap).length / 255 + 1)) 0
    { dev with log := dev.log ++ [(c1, r1)] } = l at hl1 hl2 hl3 ⊢
  simp only [hl1, Bool.true_eq_false, if_false]
  have hacc2 : accepts l.2.card := by rw [hl2]; exact hacc
  rw [if_neg (hacc2 _ _ _)]
  simp only [sent, exchanges, List.map_drop, List.map_append, hl3, List.map_cons, List.map_nil]
  rw [List.append_assoc, List.append_assoc, List.drop_left']
  · simp
  · simp

theorem load_cmds_p2 (buf : List Nat) (n : Nat) (js : List Nat) :
    ∀ p : Nat, (load_cmds buf n js p).map (fun c => c.getD 3 0) = js.map (fun j => j % 256) := by
  induction js with
  | nil => intro p; rfl
  | cons j js ih =>
    intro p
    simp only [load_cmds, List.map_cons, ih]
    rfl

theorem install_load_p2 (dev : ykneomgr_dev) (cap : zip)
    (hall : ∀ c ∈ components, (cap.lookup c).isSome = true)
    (hsz : comp_total cap components < 0xffffff)
    (happ : byteAt ((cap.lookup "Applet.cap").getD []) 3 = 1)
    (hacc : accepts dev.card) :
    (load_apdus dev (backend_applet_install dev (some cap)).2).map (fun c => c.getD 3 0)
      = (List.range ((spec_lfdb cap).length / 255 + 1)).map (fun j => j % 256) := by
  rw [load_apdus_run dev cap hall hsz happ hacc, load_cmds_p2]

theorem slice_at (l a x b : List Nat) (k n : Nat) (hl : l = a ++ x ++ b) (hk : k = a.length)
    (hn : n = x.length) : slice l k n = x := by
  subst hl hk hn
  exact slice_mid a x b

theorem comp_bytes_components (cap : zip) :
    comp_bytes cap components
      = (cap.lookup "Header.cap").getD [] ++ ((cap.lookup "Directory.cap").getD []
        ++ ((cap.lookup "Import.cap").getD [] ++ ((cap.lookup "Applet.cap").getD []
        ++ comp_bytes cap ["Class.cap", "Method.cap", "StaticField.cap", "ConstantPool.cap",
            "RefLocation.cap"]))) := by
  simp only [components, comp_bytes_cons]

theorem capBlocks_present : ∀ c ∈ components, (capBlocks.lookup c).isSome = true := by
  simp [components, capBlocks, List.lookup, -List.reduceReplicate]

theorem capBlocks_total : comp_total capBlocks components = 65298 := by
  simp [comp_total, components, capBlocks, List.lookup, -List.reduceReplicate]

theorem capBlocks_applet : byteAt ((capBlocks.lookup "Applet.cap").getD []) 3 = 1 := by
  simp [capBlocks, List.lookup, byteAt, -List.reduceReplicate]

theorem capBlocks_length : (spec_lfdb capBlocks).length = 65302 := by
  rw [spec_lfdb_length, capBlocks_total]
  rfl

/-! ### The loops of `backend_applet_list` -/

theorem list_inner_fst (recv : List Nat) (n : Nat) :
    ∀ (l : Nat) (out : List Char), l + n < 18446744073709551616 →
      (list_inner recv n l out).1 = l + n := by
  induction n with
  | zero => intro l out _; rfl
  | succ n ih =>
    intro l out h
    rw [list_inner, Nat.mod_eq_of_lt (by omega), ih _ _ (by omega)]
    omega

theorem list_loop_some (recv : List Nat) (recvlen : Nat) (h2 : 2 ≤ recvlen)
    (hlt : recvlen < 9223372036854775808) (fuel : Nat) :
    ∀ (length : Nat) (out : List Char), length ≤ recvlen + 256 → recvlen - 2 ≤ length + fuel →
      (list_loop recv recvlen (fuel + 1) length out).isSome = true := by
  have hB : (recvlen + 18446744073709551616 - 2) % 18446744073709551616 = recvlen - 2 := by
    omega
  induction fuel with
  | zero =>
    intro length out _ h
    rw [list_loop, hB, if_neg (by omega)]
    rfl
  | succ fuel ih =>
    intro length out hle h
    rw [list_loop, hB]
    split_ifs with hc
    · have hb : byteAt recv length < 256 := Nat.mod_lt _ (by decide)
      simp only
      rw [Nat.mod_eq_of_lt (by omega : length + 1 < 18446744073709551616),
        list_inner_fst _ _ _ _ (by omega), Nat.mod_eq_of_lt (by omega)]
      exact ih _ _ (by omega) (by omega)
    · rfl

theorem list_loop_isSome (recv : List Nat) (recvlen : Nat) (h2 : 2 ≤ recvlen)
    (hlt : recvlen < 9223372036854775808) :
    (list_loop recv recvlen recvlen 0 []).isSome = true := by
  obtain ⟨f, rfl⟩ := Nat.exists_eq_succ_of_ne_zero (by omega : recvlen ≠ 0)
  exact list_loop_some recv (f + 1) h2 hlt f 0 [] (by omega) (by omega)

theorem list_inner_aid (aid : List Nat) :
    ∀ (a b : List Nat) (out : List Char), (∀ x ∈ aid, x < 256) →
      a.length + aid.length < 18446744073709551616 →
      list_inner (a ++ aid ++ b) aid.length a.length out
        = (a.length + aid.length, out ++ spec_hex aid) := by
  induction aid with
  | nil => intro a b out _ _; simp [list_inner, spec_hex]
  | cons x xs ih =>
    intro a b out hx hlen
    simp only [List.length_cons] at hlen ⊢
    rw [list_inner, Nat.mod_eq_of_lt (by omega)]
    have hb : byteAt (a ++ x :: xs ++ b) a.length = x := by
      have := byteAt_append_right a (x :: xs ++ b) 0
      simp only [Nat.add_zero, List.append_assoc] at this ⊢
      rw [this]
      simp [byteAt, Nat.mod_eq_of_lt (hx x (List.mem_cons_self _ _))]
    rw [hb]
    have e : a ++ x :: xs ++ b = (a ++ [x]) ++ xs ++ b := by simp
    have := ih (a ++ [x]) b (out ++ sprintf_02x x)
      (fun y hy => hx y (List.mem_cons_of_mem _ hy))
      (by simp only [List.length_append, List.length_singleton]; omega)
    simp only [List.length_append, List.length_singleton] at this
    rw [e, this]
    simp [spec_hex, sprintf_02x]
    omega

theorem list_loop_entries (t : List Nat) (ht : t.length = 2)
    (entries : List (List Nat × Nat × Nat)) :
    ∀ (recv a : List Nat) (out : List Char) (fuel : Nat),
      recv = a ++ (entries.map status_entry).flatten ++ t →
      entries.length < fuel →
      (∀ e ∈ entries, e.1.length < 256 ∧ ∀ b ∈ e.1, b < 256) →
      recv.length < 9223372036854775808 →
      list_loop recv recv.length fuel a.length out
        = some (out ++ spec_aid_strings (entries.map (fun e => e.1))) := by
  induction entries with
  | nil =>
    intro recv a out fuel hr hf _ hlen
    obtain ⟨f, rfl⟩ := Nat.exists_eq_succ_of_ne_zero (by omega : fuel ≠ 0)
    have hl : recv.length = a.length + 2 := by rw [hr]; simp [ht]
    have hB : (recv.length + 18446744073709551616 - 2) % 18446744073709551616
        = recv.length - 2 := by omega
    rw [list_loop, hB, if_neg (by omega)]
    simp [spec_aid_strings]
  | cons e es ih =>
    intro recv a out fuel hr hf hb hlen
    obtain ⟨f, rfl⟩ := Nat.exists_eq_succ_of_ne_zero (by omega : fuel ≠ 0)
    obtain ⟨he1, he2⟩ := hb e (List.mem_cons_self _ _)
    have hl : recv.length = a.length + (1 + e.1.length + 2)
        + ((es.map status_entry).flatten).length + 2 := by
      rw [hr]
      simp [ht, status_entry]
      omega
    have r1 : recv = a ++ (e.1.length :: (e.1 ++ [e.2.1, e.2.2]
        ++ (es.map status_entry).flatten ++ t)) := by
      rw [hr]; simp [status_entry]
    have r2 : recv = (a ++ [e.1.length]) ++ e.1 ++ ([e.2.1, e.2.2]
        ++ (es.map status_entry).flatten ++ t) := by
      rw [hr]; simp [status_entry]
    have r3 : recv = (a ++ status_entry e) ++ (es.map status_entry).flatten ++ t := by
      rw [hr]; simp [status_entry]
    have hthis : byteAt recv a.length = e.1.length := by
      have := byteAt_append_right a (e.1.length :: (e.1 ++ [e.2.1, e.2.2]
        ++ (es.map status_entry).flatten ++ t)) 0
      rw [Nat.add_zero, ← r1] at this
      rw [this]
      simp [byteAt, Nat.mod_eq_of_lt he1]
    have hinner : ∀ o : List Char, list_inner recv e.1.length (a.length + 1) o
        = (a.length + 1 + e.1.length, o ++ spec_hex e.1) := by
      intro o
      have := list_inner_aid e.1 (a ++ [e.1.length]) ([e.2.1, e.2.2]
        ++ (es.map status_entry).flatten ++ t) o he2
        (by simp only [List.length_append, List.length_singleton]; omega)
      rw [← r2] at this
      simpa only [List.length_append, List.length_singleton] using this
    have hB : (recv.length + 18446744073709551616 - 2) % 18446744073709551616
        = recv.length - 2 := by omega
    rw [list_loop, hB, if_pos (by omega)]
    simp only
    rw [hthis, Nat.mod_eq_of_lt (by omega : a.length + 1 < 18446744073709551616), hinner,
      Nat.mod_eq_of_lt (by simp only; omega)]
    have hi := ih recv (a ++ status_entry e) (out ++ spec_hex e.1 ++ [Char.ofNat 0]) f r3
      (by simp only [List.length_cons] at hf; omega)
      (fun e1 h1 => hb e1 (List.mem_cons_of_mem _ h1)) hlen
    have hlen2 : (a ++ status_entry e).length = a.length + 1 + e.1.length + 2 := by
      simp [status_entry]
      omega
    rw [hlen2] at hi
    simp only
    rw [hi]
    simp [spec_aid_strings]

theorem status_entries_length (entries : List (List Nat × Nat × Nat)) :
    entries.length ≤ ((entries.map status_entry).flatten).length
    ∧ ∀ e ∈ entries, e.1.length + 3 ≤ ((entries.map status_entry).flatten).length := by
  induction entries with
  | nil => simp
  | cons e es ih =>
    simp only [List.map_cons, List.flatten_cons, List.length_append, List.length_cons,
      List.mem_cons, forall_eq_or_imp, status_entry, List.length_nil]
    refine ⟨by omega, by omega, fun e1 h1 => ?_⟩
    have := ih.2 e1 h1
    omega

theorem take_listApdu : List.take 8 listApdu = listApdu := rfl

theorem int_of_size_small (v : Nat) (h : v < 2147483648) : int_of_size v = (v : Int) := by
  unfold int_of_size
  rw [Nat.mod_eq_of_lt (by omega), if_pos h]

theorem list_len_small (dev : ykneomgr_dev) (flag : Bool)
    (h2 : 2 ≤ (dev.card (dev.log.map Prod.fst) listApdu 256).recvlen)
    (hcap : (dev.card (dev.log.map Prod.fst) listApdu 256).recvlen ≤ 256) :
    (backend_applet_list dev flag).len
      = 2 * ((dev.card (dev.log.map Prod.fst) listApdu 256).recvlen - 2) := by
  unfold backend_applet_list
  simp only [backend_apdu_recv, backend_apdu_recvlen, take_listApdu]
  generalize dev.card (dev.log.map Prod.fst) listApdu 256 = r at h2 hcap
  have e1 : (r.recvlen + 18446744073709551616 - 2) % 18446744073709551616 * 2
      % 18446744073709551616 = 2 * (r.recvlen - 2) := by omega
  rw [e1, int_of_size_small _ (by omega)]
  have e2 : (((2 * (r.recvlen - 2) : Nat) : Int) % 18446744073709551616).toNat
      = 2 * (r.recvlen - 2) := by omega
  split <;> exact e2

theorem spec_aid_strings_length (aids : List (List Nat)) :
    (spec_aid_strings aids).length = (aids.map (fun a => 2 * a.length + 1)).sum := by
  induction aids with
  | nil => rfl
  | cons a as ih =>
    simp only [spec_aid_strings, List.map_cons, List.flatten_cons, List.length_append,
      List.sum_cons] at ih ⊢
    rw [ih]
    have : (spec_hex a).length = 2 * a.length := by
      induction a with
      | nil => rfl
      | cons x xs ihx =>
        simp only [spec_hex, List.map_cons, List.flatten_cons, List.length_append,
          List.length_cons, List.length_nil] at ihx ⊢
        omega
    simp [this]

theorem status_entries_sum (entries : List (List Nat × Nat × Nat)) :
    ((entries.map (fun e => e.1)).map (fun a => 2 * a.length + 1)).sum
      ≤ 2 * ((entries.map status_entry).flatten).length := by
  induction entries with
  | nil => simp
  | cons e es ih =>
    simp only [List.map_cons, List.sum_cons, List.flatten_cons, List.length_append,
      status_entry, List.length_cons, List.length_nil]
    omega

theorem list_fits_entries (dev : ykneomgr_dev) (entries : List (List Nat × Nat × Nat))
    (sw1 sw2 : Nat)
    (hrecv : (dev.card (dev.log.map Prod.fst) listApdu 256).recv
      = (entries.map status_entry).flatten ++ [sw1, sw2])
    (hlen : (dev.card (dev.log.map Prod.fst) listApdu 256).recvlen
      = (dev.card (dev.log.map Prod.fst) listApdu 256).recv.length)
    (hcap : (dev.card (dev.log.map Prod.fst) listApdu 256).recvlen ≤ 256)
    (hbytes : ∀ e ∈ entries, ∀ b ∈ e.1, b < 256) :
    ∃ w : List Char, (backend_applet_list dev true).written = some w
      ∧ w.length ≤ (backend_applet_list dev false).len := by
  have hl : (dev.card (dev.log.map Prod.fst) listApdu 256).recvlen
      = ((entries.map status_entry).flatten).length + 2 := by
    rw [hlen, hrecv]; simp
  rw [list_len_small dev false (by omega) hcap]
  refine ⟨spec_aid_strings (entries.map (fun e => e.1)), ?_, ?_⟩
  · unfold backend_applet_list
    simp only [backend_apdu_recv, backend_apdu_recvlen, take_listApdu, Bool.true_eq_false,
      if_false]
    generalize dev.card (dev.log.map Prod.fst) listApdu 256 = r at hrecv hlen hcap hl
    rw [hlen] at hcap hl ⊢
    obtain ⟨hk, he⟩ := status_entries_length entries
    have := list_loop_entries [sw1, sw2] rfl entries r.recv [] [] r.recv.length
      (by rw [hrecv]; simp) (by omega)
      (fun e h => ⟨by have := he e h; omega, hbytes e h⟩) (by omega)
    simpa using this
  · rw [spec_aid_strings_length, hl]
    have := status_entries_sum entries
    omega

theorem authenticate_third (D : DesLib) (dev : ykneomgr_dev) (key : List Nat)
    (r1 r2 : Reply)
    (h1 : dev.card (dev.log.map Prod.fst) selectApdu 256 = r1)
    (h2 : dev.card (dev.log.map Prod.fst ++ [selectApdu]) initUpdate r1.recvlen = r2)
    (hlen : r2.recvlen = 30)
    (hc : slice r2.recv 20 8 = spec_card_cryptogram D key r2.recv) :
    ∃ r3 : Reply, (exchanges dev (backend_authenticate D dev key).2)[2]?
      = some (List.take 21 (authenticate_vars D key r2.recv).send, r3) := by
  rw [authenticate_normal_form]
  simp only [backend_apdu_dev, backend_apdu_recv, backend_apdu_recvlen, take_selectApdu,
    take_initUpdate, List.map_append, List.map_cons, List.map_nil, h1, h2, vars_card_cryptogram,
    show 5 + 16 = 21 from rfl, DES_BLOCK_SIZE]
  rw [if_neg (not_not.mpr hlen), if_neg (not_not.mpr hc.symm), ite_snd]
  refine ⟨dev.card (List.map Prod.fst dev.log ++ [selectApdu] ++ [initUpdate])
    (List.take 21 (authenticate_vars D key r2.recv).send) r2.recvlen, ?_⟩
  simp [exchanges]

theorem authenticate_third_layout (D : DesLib) (dev : ykneomgr_dev) (key : List Nat)
    (r1 r2 : Reply)
    (h1 : dev.card (dev.log.map Prod.fst) selectApdu 256 = r1)
    (h2 : dev.card (dev.log.map Prod.fst ++ [selectApdu]) initUpdate r1.recvlen = r2)
    (hlen : r2.recvlen = 30)
    (hc : slice r2.recv 20 8
      = spec_retail_mac D (spec_schedule D (authenticate_vars D key r2.recv).sessionkey)
          (slice initUpdate 5 8 ++ [byteAt r2.recv 12, byteAt r2.recv 13]
            ++ slice r2.recv 14 6)) :
    ∃ r3 : Reply, (exchanges dev (backend_authenticate D dev key).2)[2]?
      = some ([0x84, 0x82, 0x00, 0x00, 0x10] ++ (authenticate_vars D key r2.recv).host_cryptogram
          ++ spec_command_mac D (spec_schedule D (authenticate_vars D key r2.recv).mackey)
              ([0x84, 0x82, 0x00, 0x00, 0x10]
                ++ (authenticate_vars D key r2.recv).host_cryptogram), r3) := by
  rw [vars_sessionkey] at hc
  obtain ⟨r3, h3⟩ := authenticate_third D dev key r1 r2 h1 h2 hlen hc
  have hlen8 : (authenticate_vars D key r2.recv).host_cryptogram.length = 8 := by
    rw [vars_host_cryptogram, spec_retail_mac_length]
  have hs := send_layout D (authenticate_vars D key r2.recv).mackey
    (authenticate_vars D key r2.recv).host_cryptogram hlen8
  have hv : (authenticate_vars D key r2.recv).send
      = authenticate_send D (authenticate_vars D key r2.recv).mackey
          (authenticate_vars D key r2.recv).host_cryptogram := rfl
  rw [hv, hs] at h3
  exact ⟨r3, h3⟩

theorem load_cmds_fit (buf : List Nat) (n : Nat) (js : List Nat) :
    ∀ p : Nat, ∀ c ∈ load_cmds buf n js p, c.length ≤ 0xff + 5 := by
  induction js with
  | nil => intro p c hc; simp [load_cmds] at hc
  | cons j js ih =>
    intro p c hc
    simp only [load_cmds, List.mem_cons] at hc
    rcases hc with h | h
    · subst h
      simp only [List.length_append, List.length_cons, List.length_nil, slice_length]
      split_ifs <;> omega
    · exact ih _ c h

theorem install_cmds_fit (dev : ykneomgr_dev) (cap : zip)
    (hall : ∀ c ∈ components, (cap.lookup c).isSome = true)
    (hsz : comp_total cap components < 0xffffff)
    (happ : byteAt ((cap.lookup "Applet.cap").getD []) 3 = 1)
    (hacc : accepts dev.card) (hin : install_in_bounds cap) :
    ∀ c ∈ sent dev (backend_applet_install dev (some cap)).2, c.length ≤ 0xff + 5 := by
  obtain ⟨st, hst, hs⟩ := install_cmds dev cap hall hsz happ hacc
  obtain ⟨f1, _, f3, _⟩ := read_loop_fields cap _ _ st
    (by rw [spec_lfdb_length]; simp only [List.length_cons]; omega) hst
  obtain ⟨_, _, b1, b2⟩ := hin
  rw [← f1] at b1 b2
  rw [← f3] at b2
  intro c hc
  rw [hs] at hc
  simp only [List.cons_append, List.mem_cons, List.mem_append, List.mem_singleton,
    List.not_mem_nil, or_false] at hc
  rcases hc with h | h | h
  · subst h
    simp [slice_length, sdAid]
    omega
  · exact load_cmds_fit _ _ _ _ c h
  · subst h
    simp [slice_length]
    omega

/-! ### The claims -/

/-- C1: for a device whose card answers SELECT with `r1`, INITIALIZE UPDATE
with `r2` and EXTERNAL AUTHENTICATE with `r3`, all three transmissions
succeeding, `backend_authenticate` returns `YKNEOMGR_OK` if and only if `r2` is
30 bytes long, its bytes 20..27 are the Retail MAC under the derived session
key over host challenge, sequence counter (bytes 12..13) and card challenge
(bytes 14..19), and `r3` is the status word 0x9000; in every other case it
returns an error.  SELECT and INITIALIZE UPDATE are transmitted in every run,
EXTERNAL AUTHENTICATE when the first two conditions hold. -/
theorem C1_authenticate_ok_iff (D : DesLib) (dev : ykneomgr_dev) (key : List Nat)
    (r1 r2 r3 : Reply)
    (h1 : dev.card (dev.log.map Prod.fst) selectApdu 256 = r1)
    (h2 : dev.card (dev.log.map Prod.fst ++ [selectApdu]) initUpdate r1.recvlen = r2)
    (h3 : dev.card (dev.log.map Prod.fst ++ [selectApdu, initUpdate])
      (List.take 21 (authenticate_vars D key r2.recv).send) r2.recvlen = r3)
    (hres : r1.result = SCARD_S_SUCCESS ∧ r2.result = SCARD_S_SUCCESS
      ∧ r3.result = SCARD_S_SUCCESS) :
    ((backend_authenticate D dev key).1 = YKNEOMGR_OK ↔
      r2.recvlen = 30
        ∧ slice r2.recv 20 8 = spec_card_cryptogram D key r2.recv
        ∧ r3.recvlen = 2 ∧ byteAt r3.recv 0 = 0x90 ∧ byteAt r3.recv 1 = 0x00)
    ∧ ((backend_authenticate D dev key).1 ≠ YKNEOMGR_OK →
        (backend_authenticate D dev key).1 = YKNEOMGR_BACKEND_ERROR)
    ∧ (exchanges dev (backend_authenticate D dev key).2).take 2
        = [(selectApdu, r1), (initUpdate, r2)]
    ∧ (r2.recvlen = 30 ∧ slice r2.recv 20 8 = spec_card_cryptogram D key r2.recv →
        exchanges dev (backend_authenticate D dev key).2
          = [(selectApdu, r1), (initUpdate, r2),
              (List.take 21 (authenticate_vars D key r2.recv).send, r3)]) := by
  obtain ⟨_, _, _⟩ := hres
  rw [authenticate_normal_form]
  simp only [backend_apdu_dev, backend_apdu_recv, backend_apdu_recvlen, take_selectApdu,
    take_initUpdate, List.map_append, List.map_cons, List.map_nil, h1, h2, vars_card_cryptogram,
    List.append_assoc, List.singleton_append, show 5 + 16 = 21 from rfl, h3, DES_BLOCK_SIZE]
  split_ifs with c1 c2 c3
  · simp only [ne_eq] at c1
    simp [exchanges, c1]
  · simp only [ne_eq, not_not] at c1
    simp only [ne_eq] at c2
    have c2b : ¬ slice r2.recv 20 8 = spec_card_cryptogram D key r2.recv :=
      fun e => c2 e.symm
    simp [exchanges, c1, c2b]
  · simp only [ne_eq, not_not] at c1 c2
    simp [exchanges, c1, c2, c3]
  · simp only [ne_eq, not_not] at c1 c2
    simp [exchanges, c1, c2]
    exact fun a b c => c3 ⟨a, b, c⟩

/-- C1 (witness): the statement at the card `cardSelectOk`, the all-zero key
and the identity cipher, where the result is `YKNEOMGR_OK`. -/
theorem C1_authenticate_ok_iff_witness :
    ((backend_authenticate idDes ⟨cardSelectOk, []⟩ (List.replicate 16 0)).1 = YKNEOMGR_OK ↔
      (30 : Nat) = 30
        ∧ slice (List.replicate 20 0 ++ [0x81, 2, 3, 4, 5, 6, 7, 8] ++ [0x90, 0x00]) 20 8
            = spec_card_cryptogram idDes (List.replicate 16 0)
                (List.replicate 20 0 ++ [0x81, 2, 3, 4, 5, 6, 7, 8] ++ [0x90, 0x00])
        ∧ (2 : Nat) = 2 ∧ byteAt [0x90, 0x00] 0 = 0x90 ∧ byteAt [0x90, 0x00] 1 = 0x00)
    ∧ ((backend_authenticate idDes ⟨cardSelectOk, []⟩ (List.replicate 16 0)).1 ≠ YKNEOMGR_OK →
        (backend_authenticate idDes ⟨cardSelectOk, []⟩ (List.replicate 16 0)).1
          = YKNEOMGR_BACKEND_ERROR)
    ∧ (exchanges ⟨cardSelectOk, []⟩
          (backend_authenticate idDes ⟨cardSelectOk, []⟩ (List.replicate 16 0)).2).take 2
        = [(selectApdu, ⟨0, List.replicate 30 0 ++ [0x90, 0x00], 32⟩),
           (initUpdate,
            ⟨0, List.replicate 20 0 ++ [0x81, 2, 3, 4, 5, 6, 7, 8] ++ [0x90, 0x00], 30⟩)]
    ∧ ((30 : Nat) = 30
        ∧ slice (List.replicate 20 0 ++ [0x81, 2, 3, 4, 5, 6, 7, 8] ++ [0x90, 0x00]) 20 8
            = spec_card_cryptogram idDes (List.replicate 16 0)
                (List.replicate 20 0 ++ [0x81, 2, 3, 4, 5, 6, 7, 8] ++ [0x90, 0x00]) →
        exchanges ⟨cardSelectOk, []⟩
            (backend_authenticate idDes ⟨cardSelectOk, []⟩ (List.replicate 16 0)).2
          = [(selectApdu, ⟨0, List.replicate 30 0 ++ [0x90, 0x00], 32⟩),
             (initUpdate,
              ⟨0, List.replicate 20 0 ++ [0x81, 2, 3, 4, 5, 6, 7, 8] ++ [0x90, 0x00], 30⟩),
             (List.take 21 (authenticate_vars idDes (List.replicate 16 0)
                (List.replicate 20 0 ++ [0x81, 2, 3, 4, 5, 6, 7, 8] ++ [0x90, 0x00])).send,
              ⟨0, [0x90, 0x00], 2⟩)]) :=
  C1_authenticate_ok_iff idDes ⟨cardSelectOk, []⟩ (List.replicate 16 0)
    ⟨0, List.replicate 30 0 ++ [0x90, 0x00], 32⟩
    ⟨0, List.replicate 20 0 ++ [0x81, 2, 3, 4, 5, 6, 7, 8] ++ [0x90, 0x00], 30⟩
    ⟨0, [0x90, 0x00], 2⟩ rfl rfl rfl ⟨rfl, rfl, rfl⟩

/-- C2 (the code at the failing input): the card answers INSTALL for load, LOAD
and INSTALL for install each with the three bytes `00 6A 80`, status word
0x6A80; `backend_applet_install` transmits all three commands and returns
`YKNEOMGR_OK`. -/
theorem C2_install_ignores_status :
    (exchanges ⟨cardSw6a80, []⟩ (backend_applet_install ⟨cardSw6a80, []⟩ (some capSmall)).2).map
        (fun e => (e.1.take 3, e.2.recvlen, byteAt e.2.recv 1, byteAt e.2.recv 2))
      = [([0x80, 0xe6, 0x02], 3, 0x6a, 0x80), ([0x80, 0xe8, 0x80], 3, 0x6a, 0x80),
         ([0x80, 0xe6, 0x0c], 3, 0x6a, 0x80)]
    ∧ (backend_applet_install ⟨cardSw6a80, []⟩ (some capSmall)).1 = YKNEOMGR_OK := by
  decide

/-- C3 (the code at the failing input): the components of `cap252` add up to
252 bytes, the load file data block has 255 bytes, every reply is `00 90 00`,
and `backend_applet_install` transmits two LOAD commands, not
ceil(255/255) = 1. -/
theorem C3_exact_multiple_extra_load :
    (spec_lfdb cap252).length = 255
    ∧ (load_apdus ⟨cardOk, []⟩ (backend_applet_install ⟨cardOk, []⟩ (some cap252)).2).length = 2
    ∧ ceil_div 255 255 = 1 := by
  have hlen : (spec_lfdb cap252).length = 255 := by
    rw [spec_lfdb_length, cap252_total]; decide
  refine ⟨hlen, ?_, by decide⟩
  rw [load_apdus_run ⟨cardOk, []⟩ cap252 cap252_present (by rw [cap252_total]; decide)
    cap252_applet (all_success_accepts _ cardOk_all_success), load_cmds_length,
    List.length_range, hlen]

/-- C4: when all nine components are present, the total is below 0xFFFFFF, the
applet component declares one applet, no access leaves an array
(`install_in_bounds`) and every reply is successful, every LOAD
command carries at most 255 data bytes and its Lc byte is the length of its
data; the P1 bytes of the LOAD commands, in order, are 0x00 for all but the
last and 0x80 for the last; every command of the run fits the array `send`. -/
theorem C4_load_blocks (dev : ykneomgr_dev) (cap : zip)
    (hall : ∀ c ∈ components, (cap.lookup c).isSome = true)
    (hsz : comp_total cap components < 0xffffff)
    (happ : byteAt ((cap.lookup "Applet.cap").getD []) 3 = 1)
    (hok : all_success dev.card) (hin : install_in_bounds cap) :
    (∀ c ∈ load_apdus dev (backend_applet_install dev (some cap)).2,
      (c.drop 5).length ≤ 255 ∧ c.getD 4 0 = (c.drop 5).length)
    ∧ (load_apdus dev (backend_applet_install dev (some cap)).2).map (fun c => c.getD 2 0)
        = List.replicate
            ((load_apdus dev (backend_applet_install dev (some cap)).2).length - 1) 0x00
          ++ [0x80]
    ∧ ∀ c ∈ sent dev (backend_applet_install dev (some cap)).2, c.length ≤ 0xff + 5 := by
  refine ⟨?_, ?_, install_cmds_fit dev cap hall hsz happ (all_success_accepts _ hok) hin⟩ <;>
    rw [load_apdus_run dev cap hall hsz happ (all_success_accepts _ hok)]
  · intro c hc
    exact (load_cmds_shape _ _ _ _ c hc).2
  · rw [load_cmds_length, List.length_range, List.range_eq_range',
      load_cmds_p1 _ _ _ 0 0 (by omega) (by omega)]
    simp

/-- C4 (witness): the statement at the archive `capSmall` and the card that
answers `00 90 00`. -/
theorem C4_load_blocks_witness :
    (∀ c ∈ load_apdus ⟨cardOk, []⟩ (backend_applet_install ⟨cardOk, []⟩ (some capSmall)).2,
      (c.drop 5).length ≤ 255 ∧ c.getD 4 0 = (c.drop 5).length)
    ∧ (load_apdus ⟨cardOk, []⟩ (backend_applet_install ⟨cardOk, []⟩ (some capSmall)).2).map
          (fun c => c.getD 2 0)
        = List.replicate
            ((load_apdus ⟨cardOk, []⟩
              (backend_applet_install ⟨cardOk, []⟩ (some capSmall)).2).length - 1) 0x00
          ++ [0x80]
    ∧ ∀ c ∈ sent ⟨cardOk, []⟩ (backend_applet_install ⟨cardOk, []⟩ (some capSmall)).2, c.length ≤ 0xff + 5 :=
  C4_load_blocks ⟨cardOk, []⟩ capSmall (by decide) (by decide) (by decide) cardOk_all_success
    (by unfold install_in_bounds; decide)

/-- C5 (counterexample): the archive `capHuge` has all nine components, its
applet component declares one applet and every reply is successful, but its
total is not below 0xFFFFFF: the install returns an error, no LOAD command is
transmitted, and the concatenation of the data fields is empty, while a load
file data block starts with the tag 0xC4. -/
theorem C5_oversized_package :
    (∀ c ∈ components, (capHuge.lookup c).isSome = true)
    ∧ byteAt ((capHuge.lookup "Applet.cap").getD []) 3 = 1
    ∧ all_success cardOk
    ∧ backend_applet_install ⟨cardOk, []⟩ (some capHuge)
        = (YKNEOMGR_BACKEND_ERROR, ⟨cardOk, []⟩)
    ∧ ((load_apdus ⟨cardOk, []⟩ (backend_applet_install ⟨cardOk, []⟩ (some capHuge)).2).map
        (fun c => c.drop 5)).flatten = []
    ∧ ∀ rest : List Nat,
        ((load_apdus ⟨cardOk, []⟩ (backend_applet_install ⟨cardOk, []⟩ (some capHuge)).2).map
          (fun c => c.drop 5)).flatten ≠ 0xc4 :: rest := by
  have hall : ∀ c ∈ components, (capHuge.lookup c).isSome = true := by
    simp [components, capHuge, List.lookup, -List.reduceReplicate]
  have htot : comp_total capHuge components = 16777220 := by
    simp [comp_total, components, capHuge, List.lookup, -List.reduceReplicate]
  have hrun := install_no_header ⟨cardOk, []⟩ capHuge hall (by rw [htot]; decide)
  refine ⟨hall, ?_, cardOk_all_success, hrun, ?_, ?_⟩
  · simp [capHuge, List.lookup, byteAt, -List.reduceReplicate]
  · rw [hrun]; rfl
  · intro rest
    rw [hrun]
    exact (List.cons_ne_nil _ _).symm

/-- C5 (amended): when all nine components are present, the total is below
0xFFFFFF, the applet component declares one applet, no access leaves an array
(`install_in_bounds`) and every reply is successful, the data fields of the LOAD commands, concatenated
in the order of transmission, are exactly the load file data block: the tag
0xC4, the length encoding of the component total, and the bytes of the nine
components in their fixed order; every command of the run fits the array
`send`. -/
theorem C5_load_data (dev : ykneomgr_dev) (cap : zip)
    (hall : ∀ c ∈ components, (cap.lookup c).isSome = true)
    (hsz : comp_total cap components < 0xffffff)
    (happ : byteAt ((cap.lookup "Applet.cap").getD []) 3 = 1)
    (hok : all_success dev.card) (hin : install_in_bounds cap) :
    ((load_apdus dev (backend_applet_install dev (some cap)).2).map (fun c => c.drop 5)).flatten
      = 0xc4 :: spec_length_encoding (comp_total cap components)
          ++ ((cap.lookup "Header.cap").getD [] ++ (cap.lookup "Directory.cap").getD []
            ++ (cap.lookup "Import.cap").getD [] ++ (cap.lookup "Applet.cap").getD []
            ++ (cap.lookup "Class.cap").getD [] ++ (cap.lookup "Method.cap").getD []
            ++ (cap.lookup "StaticField.cap").getD [] ++ (cap.lookup "ConstantPool.cap").getD []
            ++ (cap.lookup "RefLocation.cap").getD [])
    ∧ ∀ c ∈ sent dev (backend_applet_install dev (some cap)).2, c.length ≤ 0xff + 5 := by
  refine ⟨?_, install_cmds_fit dev cap hall hsz happ (all_success_accepts _ hok) hin⟩
  rw [load_apdus_run dev cap hall hsz happ (all_success_accepts _ hok), List.range_eq_range',
    load_cmds_data _ _ rfl _ 0 0 (by omega)]
  rw [List.drop_zero, List.take_of_length_le (by omega)]
  simp [spec_lfdb, comp_bytes, components]

/-- C5 (witness): the statement at the archive `capSmall` and the card that
answers `00 90 00`. -/
theorem C5_load_data_witness :
    ((load_apdus ⟨cardOk, []⟩ (backend_applet_install ⟨cardOk, []⟩ (some capSmall)).2).map
        (fun c => c.drop 5)).flatten
      = 0xc4 :: spec_length_encoding (comp_total capSmall components)
          ++ ((capSmall.lookup "Header.cap").getD [] ++ (capSmall.lookup "Directory.cap").getD []
            ++ (capSmall.lookup "Import.cap").getD [] ++ (capSmall.lookup "Applet.cap").getD []
            ++ (capSmall.lookup "Class.cap").getD [] ++ (capSmall.lookup "Method.cap").getD []
            ++ (capSmall.lookup "StaticField.cap").getD []
            ++ (capSmall.lookup "ConstantPool.cap").getD []
            ++ (capSmall.lookup "RefLocation.cap").getD [])
    ∧ ∀ c ∈ sent ⟨cardOk, []⟩ (backend_applet_install ⟨cardOk, []⟩ (some capSmall)).2, c.length ≤ 0xff + 5 :=
  C5_load_data ⟨cardOk, []⟩ capSmall (by decide) (by decide) (by decide) cardOk_all_success
    (by unfold install_in_bounds; decide)

/-- C6: for a component total `S`, the bytes stored at the start of the buffer
are the tag 0xC4 followed by `S` itself when `S < 0x80`, by 0x81 and `S` when
`0x80 <= S < 0xFF`, by 0x82 and `S` as two big-endian bytes when
`0xFF <= S < 0xFFFF`, by 0x83 and `S` as three big-endian bytes when
`0xFFFF <= S < 0xFFFFFF`; when `S >= 0xFFFFFF` the install returns an error and
the device is unchanged, so no command was transmitted. -/
theorem C6_length_header (S : Nat) :
    (S < 0x80 → (lfdb_header S).map Prod.fst = some [0xc4, S])
    ∧ (0x80 ≤ S → S < 0xff → (lfdb_header S).map Prod.fst = some [0xc4, 0x81, S])
    ∧ (0xff ≤ S → S < 0xffff →
        (lfdb_header S).map Prod.fst = some [0xc4, 0x82, S / 256 % 256, S % 256])
    ∧ (0xffff ≤ S → S < 0xffffff →
        (lfdb_header S).map Prod.fst
          = some [0xc4, 0x83, S / 65536 % 256, S / 256 % 256, S % 256])
    ∧ (0xffffff ≤ S → ∀ (dev : ykneomgr_dev) (cap : zip),
        (∀ c ∈ components, (cap.lookup c).isSome = true) → comp_total cap components = S →
        backend_applet_install dev (some cap) = (YKNEOMGR_BACKEND_ERROR, dev)) := by
  refine ⟨?_, ?_, ?_, ?_, ?_⟩
  · intro h
    rw [lfdb_header_eq S (by omega)]
    simp [spec_length_encoding, h]
  · intro h1 h2
    rw [lfdb_header_eq S (by omega)]
    have : ¬ S < 0x80 := by omega
    simp [spec_length_encoding, this, h2]
  · intro h1 h2
    rw [lfdb_header_eq S (by omega)]
    have : ¬ S < 0x80 := by omega
    have : ¬ S < 0xff := by omega
    simp [spec_length_encoding, *, big_endian]
  · intro h1 h2
    rw [lfdb_header_eq S (by omega)]
    have : ¬ S < 0x80 := by omega
    have : ¬ S < 0xff := by omega
    have : ¬ S < 0xffff := by omega
    simp [spec_length_encoding, *, big_endian]
  · intro h dev cap hall ht
    exact install_no_header dev cap hall (by omega)

/-- C6 (witness): the statement at the totals 0x7F, 0xFE, 0x1234, 0x123456 and
at an archive whose components add up to 0x1000004 bytes. -/
theorem C6_length_header_witness :
    (lfdb_header 0x7f).map Prod.fst = some [0xc4, 0x7f]
    ∧ (lfdb_header 0xfe).map Prod.fst = some [0xc4, 0x81, 0xfe]
    ∧ (lfdb_header 0x1234).map Prod.fst = some [0xc4, 0x82, 0x12, 0x34]
    ∧ (lfdb_header 0x123456).map Prod.fst = some [0xc4, 0x83, 0x12, 0x34, 0x56]
    ∧ backend_applet_install ⟨cardOk, []⟩ (some capHuge)
        = (YKNEOMGR_BACKEND_ERROR, ⟨cardOk, []⟩) :=
  ⟨(C6_length_header 0x7f).1 (by decide),
   (C6_length_header 0xfe).2.1 (by decide) (by decide),
   (C6_length_header 0x1234).2.2.1 (by decide) (by decide),
   (C6_length_header 0x123456).2.2.2.1 (by decide) (by decide),
   (C6_length_header 0x1000004).2.2.2.2 (by decide) ⟨cardOk, []⟩ capHuge
     (by simp [components, capHuge, List.lookup, -List.reduceReplicate])
     (by simp [comp_total, components, capHuge, List.lookup, -List.reduceReplicate])⟩

/-- C7: when at least one of the nine component names is absent from the
archive, `backend_applet_install` returns an error and the device is
unchanged, so no command was transmitted. -/
theorem C7_missing_component (dev : ykneomgr_dev) (cap : zip)
    (h : ∃ c ∈ components, cap.lookup c = none) :
    backend_applet_install dev (some cap) = (YKNEOMGR_BACKEND_ERROR, dev) := by
  unfold backend_applet_install
  simp only [stat_loop_missing cap components 0 h]

/-- C7 (witness): the statement at the archive without `Method.cap`. -/
theorem C7_missing_component_witness :
    backend_applet_install ⟨cardOk, []⟩ (some capNoMethod)
      = (YKNEOMGR_BACKEND_ERROR, ⟨cardOk, []⟩) :=
  C7_missing_component ⟨cardOk, []⟩ capNoMethod ⟨"Method.cap", by decide, by decide⟩

/-- C8: when all nine components are present and the byte at offset 3 of
`Applet.cap` is not 1, `backend_applet_install` returns an error and the
device is unchanged, so no command was transmitted. -/
theorem C8_applet_count (dev : ykneomgr_dev) (cap : zip) (applet : List Nat) (count : Nat)
    (hall : ∀ c ∈ components, (cap.lookup c).isSome = true)
    (ha : cap.lookup "Applet.cap" = some applet)
    (hc : applet[3]? = some count)
    (hb : count < 256)
    (h1 : count ≠ 1) :
    backend_applet_install dev (some cap) = (YKNEOMGR_BACKEND_ERROR, dev) := by
  have hne : byteAt applet 3 ≠ 1 := by
    unfold byteAt
    rw [List.getD_eq_getElem?_getD, hc, Option.getD_some, Nat.mod_eq_of_lt hb]
    exact h1
  by_cases hsz : comp_total cap components < 0xffffff
  · have hstat := stat_loop_present cap components 0 hall
    rw [Nat.zero_add] at hstat
    have hhdr := lfdb_header_eq _ hsz
    rw [← spec_lfdb_length] at hhdr
    have hread := read_loop_applet cap (spec_lfdb cap).length components
      (by rw [ha]; exact hne)
      ⟨0xc4 :: spec_length_encoding (comp_total cap components), 0, 0, 0, 0⟩ (by decide)
      (by rw [spec_lfdb_length]; simp only [List.length_cons]; omega)
    unfold backend_applet_install
    simp only [hstat, hhdr, hread]
  · exact install_no_header dev cap hall (by omega)

/-- C8 (witness): the statement at an archive whose applet component declares
two applets. -/
theorem C8_applet_count_witness :
    backend_applet_install ⟨cardOk, []⟩ (some capTwoApplets)
      = (YKNEOMGR_BACKEND_ERROR, ⟨cardOk, []⟩) :=
  C8_applet_count ⟨cardOk, []⟩ capTwoApplets [0, 0, 0, 2, 0, 0] 2 (by decide) (by decide)
    (by decide) (by decide) (by decide)

/-- C9 (counterexample): the card answers the security-domain SELECT with the
status word 0x6283, and `backend_authenticate` still returns `YKNEOMGR_OK`. -/
theorem C9_select_failure_accepted :
    ((exchanges ⟨cardSelectFails, []⟩
        (backend_authenticate idDes ⟨cardSelectFails, []⟩ (List.replicate 16 0)).2)[0]?).map
        (fun e => (e.1, e.2.recvlen, byteAt e.2.recv 30, byteAt e.2.recv 31))
      = some (selectApdu, 32, 0x62, 0x83)
    ∧ (backend_authenticate idDes ⟨cardSelectFails, []⟩ (List.replicate 16 0)).1
      = YKNEOMGR_OK := by
  decide

/-- C9 (amended): `backend_authenticate` examines neither the status word nor
the data of the response to SELECT, nor the result of its transmission; only the
length of that response is used, as the receive capacity of INITIALIZE UPDATE.
INITIALIZE UPDATE is transmitted right after SELECT whatever the answer to
SELECT was, and two cards whose answers to SELECT have the same length and
which answer the later commands alike give the same return code. -/
theorem C9_select_response_not_examined (D : DesLib) (key : List Nat)
    (lg : List (List Nat × Reply)) (card1 card2 : List (List Nat) → List Nat → Nat → Reply)
    (hlen : (card1 (lg.map Prod.fst) selectApdu 256).recvlen
      = (card2 (lg.map Prod.fst) selectApdu 256).recvlen)
    (h : ∀ hist cmd n, lg.length < hist.length → card1 hist cmd n = card2 hist cmd n) :
    (backend_authenticate D ⟨card1, lg⟩ key).1 = (backend_authenticate D ⟨card2, lg⟩ key).1
    ∧ (sent ⟨card1, lg⟩ (backend_authenticate D ⟨card1, lg⟩ key).2).take 2
        = [selectApdu, initUpdate] := by
  rw [authenticate_normal_form, authenticate_normal_form]
  simp only [backend_apdu_dev, backend_apdu_recv, backend_apdu_recvlen, take_selectApdu,
    take_initUpdate, List.map_append, List.map_cons, List.map_nil]
  generalize card1 (List.map Prod.fst lg) selectApdu 256 = r1 at hlen ⊢
  generalize card2 (List.map Prod.fst lg) selectApdu 256 = s1 at hlen ⊢
  rw [hlen, h (List.map Prod.fst lg ++ [selectApdu]) initUpdate s1.recvlen (by simp)]
  generalize card2 (List.map Prod.fst lg ++ [selectApdu]) initUpdate s1.recvlen = r2
  generalize List.take (5 + 16) _ = cmd
  rw [h (List.map Prod.fst lg ++ [selectApdu] ++ [initUpdate]) cmd r2.recvlen (by simp)]
  generalize card2 (List.map Prod.fst lg ++ [selectApdu] ++ [initUpdate]) cmd r2.recvlen = r3
  constructor
  · split_ifs <;> rfl
  · simp only [sent, exchanges]
    split_ifs <;> simp

/-- C9 (witness): the amended statement at the card that answers SELECT with 32
bytes ending in 0x6283 and the card that answers it with 32 bytes ending in
0x9000. -/
theorem C9_select_response_not_examined_witness :
    (backend_authenticate idDes ⟨cardSelectFails, []⟩ (List.replicate 16 0)).1
      = (backend_authenticate idDes ⟨cardSelectOk, []⟩ (List.replicate 16 0)).1
    ∧ (sent ⟨cardSelectFails, []⟩
        (backend_authenticate idDes ⟨cardSelectFails, []⟩ (List.replicate 16 0)).2).take 2
        = [selectApdu, initUpdate] :=
  C9_select_response_not_examined idDes (List.replicate 16 0) [] cardSelectFails cardSelectOk
    rfl
    (by
      intro hist cmd n hlen
      rcases hist with _ | ⟨a, _ | ⟨b, tl⟩⟩
      · simp at hlen
      · rfl
      · rfl)

/-- C10 (counterexample): a response that is just the status word 0x9000 (two
bytes) makes `backend_applet_delete` return an error, and the three-byte
response `00 90 01`, whose status word is 0x9001, makes it return
`YKNEOMGR_OK`. -/
theorem C10_delete_status_word :
    (backend_applet_delete ⟨cardShortOk, []⟩ [0xa0, 0, 0, 0, 3] 5).1 = YKNEOMGR_BACKEND_ERROR
    ∧ (backend_applet_delete ⟨cardSw9001, []⟩ [0xa0, 0, 0, 0, 3] 5).1 = YKNEOMGR_OK := by
  decide

/-- C10 (amended): `backend_applet_delete` transmits one command, DELETE.  It
returns `YKNEOMGR_OK` when the response is three bytes long and ends in the
status word 0x9000, and an error when the response is not three bytes long or
its second byte (SW1) is not 0x90. -/
theorem C10_delete_result (dev : ykneomgr_dev) (aid : List Nat) (aidlen : Nat) :
    ∃ (cmd : List Nat) (r : Reply),
      exchanges dev (backend_applet_delete dev aid aidlen).2 = [(cmd, r)]
      ∧ cmd.take 4 = [0x80, 0xe4, 0, 0x80]
      ∧ (r.recvlen = 3 ∧ byteAt r.recv 1 = 0x90 ∧ byteAt r.recv 2 = 0x00 →
          (backend_applet_delete dev aid aidlen).1 = YKNEOMGR_OK)
      ∧ (r.recvlen ≠ 3 ∨ byteAt r.recv 1 ≠ 0x90 →
          (backend_applet_delete dev aid aidlen).1 = YKNEOMGR_BACKEND_ERROR) := by
  unfold backend_applet_delete
  simp only [backend_apdu_dev, backend_apdu_recv, backend_apdu_recvlen, List.take_length]
  refine ⟨[0x80, 0xe4, 0, 0x80, (aidlen + 2) % 256, 0x4f, aidlen % 256] ++ slice aid 0 aidlen,
    dev.card (List.map Prod.fst dev.log)
      ([0x80, 0xe4, 0, 0x80, (aidlen + 2) % 256, 0x4f, aidlen % 256] ++ slice aid 0 aidlen) 261,
    ?_, rfl, ?_, ?_⟩
  · split_ifs <;> simp [exchanges]
  · intro h
    rw [if_pos ⟨h.1, h.2.1⟩]
  · intro h
    rw [if_neg (by rintro ⟨h1, h2⟩; rcases h with h | h; exact h h1; exact h h2)]

/-- C11: when the INITIALIZE UPDATE response `r2` of a run of
`backend_authenticate` has 30 bytes and carries the expected card cryptogram,
the third command of the run is 21 bytes long and consists of the header
84 82 00 00 10, the host cryptogram and the command MAC; the host cryptogram is
the Retail MAC construction under the session key over sequence counter, card
challenge and the host challenge that was sent in INITIALIZE UPDATE. -/
theorem C11_external_authenticate (D : DesLib) (dev : ykneomgr_dev) (key : List Nat)
    (r2 : Reply)
    (h2 : (exchanges dev (backend_authenticate D dev key).2)[1]? = some (initUpdate, r2))
    (hlen : r2.recvlen = 30)
    (hcrypt : slice r2.recv 20 8 = spec_card_cryptogram D key r2.recv) :
    ∃ (hc mac : List Nat) (r3 : Reply),
      (exchanges dev (backend_authenticate D dev key).2)[2]?
          = some ([0x84, 0x82, 0x00, 0x00, 0x10] ++ hc ++ mac, r3)
        ∧ ([0x84, 0x82, 0x00, 0x00, 0x10] ++ hc ++ mac).length = 21
        ∧ hc.length = 8 ∧ mac.length = 8
        ∧ hc = spec_retail_mac D
                (spec_schedule D (authenticate_vars D key r2.recv).sessionkey)
                ([byteAt r2.recv 12, byteAt r2.recv 13] ++ slice r2.recv 14 6
                  ++ initUpdate.drop 5)
        ∧ mac = spec_command_mac D (spec_schedule D (authenticate_vars D key r2.recv).mackey)
                ([0x84, 0x82, 0x00, 0x00, 0x10] ++ hc) := by
  rw [authenticate_normal_form] at h2 ⊢
  simp only [backend_apdu_dev, backend_apdu_recv, backend_apdu_recvlen, take_selectApdu,
    take_initUpdate] at h2 ⊢
  generalize dev.card (dev.log.map Prod.fst) selectApdu 256 = r1 at h2 ⊢
  generalize dev.card (List.map Prod.fst (dev.log ++ [(selectApdu, r1)])) initUpdate
    r1.recvlen = q at h2 ⊢
  have hq : q = r2 := by
    simp only [exchanges] at h2
    split_ifs at h2 <;> simpa using h2
  subst hq
  clear h2
  have hcrypt2 : spec_card_cryptogram D key q.recv = slice q.recv 20 DES_BLOCK_SIZE :=
    hcrypt.symm
  have hlen8 : (authenticate_vars D key q.recv).host_cryptogram.length = 8 := by
    rw [vars_host_cryptogram, spec_retail_mac_length]
  rw [if_neg (not_not.mpr hlen), vars_card_cryptogram, if_neg (not_not.mpr hcrypt2), ite_snd]
  refine ⟨(authenticate_vars D key q.recv).host_cryptogram,
    spec_command_mac D (spec_schedule D (authenticate_vars D key q.recv).mackey)
      ([0x84, 0x82, 0x00, 0x00, 0x10] ++ (authenticate_vars D key q.recv).host_cryptogram),
    dev.card (List.map Prod.fst (dev.log ++ [(selectApdu, r1)] ++ [(initUpdate, q)]))
      (List.take (5 + 16) (authenticate_vars D key q.recv).send) q.recvlen,
    ?_, ?_, hlen8, ?_, ?_, rfl⟩
  · have hs := send_layout D (authenticate_vars D key q.recv).mackey
      (authenticate_vars D key q.recv).host_cryptogram hlen8
    have hv : (authenticate_vars D key q.recv).send
        = authenticate_send D (authenticate_vars D key q.recv).mackey
            (authenticate_vars D key q.recv).host_cryptogram := rfl
    rw [hv, show 5 + 16 = 21 from rfl, hs]
    simp [exchanges]
  · simp [hlen8, spec_command_mac, block8_length]
  · simp [spec_command_mac, block8_length]
  · rw [vars_host_cryptogram, vars_sessionkey]
    rfl

/-- C11 (witness): the statement at the card `cardSelectOk`, the all-zero key
and the identity cipher. -/
theorem C11_external_authenticate_witness :
    ∃ (hc mac : List Nat) (r3 : Reply),
      (exchanges ⟨cardSelectOk, []⟩
          (backend_authenticate idDes ⟨cardSelectOk, []⟩ (List.replicate 16 0)).2)[2]?
          = some ([0x84, 0x82, 0x00, 0x00, 0x10] ++ hc ++ mac, r3)
        ∧ ([0x84, 0x82, 0x00, 0x00, 0x10] ++ hc ++ mac).length = 21
        ∧ hc.length = 8 ∧ mac.length = 8
        ∧ hc = spec_retail_mac idDes
                (spec_schedule idDes (authenticate_vars idDes (List.replicate 16 0)
                  (List.replicate 20 0 ++ [0x81, 2, 3, 4, 5, 6, 7, 8] ++ [0x90, 0x00])).sessionkey)
                ([0, 0] ++ [0, 0, 0, 0, 0, 0] ++ [1, 2, 3, 4, 5, 6, 7, 8])
        ∧ mac = spec_command_mac idDes
                (spec_schedule idDes (authenticate_vars idDes (List.replicate 16 0)
                  (List.replicate 20 0 ++ [0x81, 2, 3, 4, 5, 6, 7, 8] ++ [0x90, 0x00])).mackey)
                ([0x84, 0x82, 0x00, 0x00, 0x10] ++ hc) :=
  C11_external_authenticate idDes ⟨cardSelectOk, []⟩ (List.replicate 16 0)
    ⟨0, List.replicate 20 0 ++ [0x81, 2, 3, 4, 5, 6, 7, 8] ++ [0x90, 0x00], 30⟩
    (by decide) rfl (by decide)

/-- C12: for an archive with all nine components and a total below 0xFFFFFF,
whose `Header.cap` holds the length of the package AID `P` at offset 12 and `P`
after it, and whose `Applet.cap` declares one applet, with the length of its
AID `A` at offset 4 and `A` after it, where `|P| + 2|A| + 10 <= 255` and the
INSTALL for load command, of `18 + |P|` bytes, fits the array `send`, and for a
card whose replies are all successful: the last command that
`backend_applet_install` transmits is 80 E6 0C 00, Lc, |P|, P, |A|, A, |A|, A,
01 00 03 C9 01 00 00 with Lc = |P| + 2|A| + 10, the number of bytes after Lc;
every command of the run fits the array `send`. -/
theorem C12_install_selectable (dev : ykneomgr_dev) (cap : zip)
    (pre P post : List Nat) (a0 a1 a2 : Nat) (A post2 : List Nat)
    (hall : ∀ c ∈ components, (cap.lookup c).isSome = true)
    (hsz : comp_total cap components < 0xffffff)
    (hhdr : cap.lookup "Header.cap" = some (pre ++ P.length :: P ++ post))
    (hpre : pre.length = 12)
    (happ : cap.lookup "Applet.cap" = some ([a0, a1, a2, 1, A.length] ++ A ++ post2))
    (hlc : P.length + 2 * A.length + 10 ≤ 255)
    (hfit : 18 + P.length ≤ 0xff + 5)
    (hok : all_success dev.card) :
    ∃ cmd : List Nat,
      (sent dev (backend_applet_install dev (some cap)).2).getLast? = some cmd
      ∧ cmd = [0x80, 0xe6, 0x0c, 0x00, P.length + 2 * A.length + 10, P.length] ++ P
          ++ [A.length] ++ A ++ [A.length] ++ A ++ [0x01, 0x00, 0x03, 0xc9, 0x01, 0x00, 0x00]
      ∧ cmd.getD 4 0 = P.length + 2 * A.length + 10
      ∧ (cmd.drop 5).length = P.length + 2 * A.length + 10
      ∧ ∀ c ∈ sent dev (backend_applet_install dev (some cap)).2, c.length ≤ 0xff + 5 := by
  have hP : P.length < 256 := by omega
  have hA : A.length < 256 := by omega
  have hacc : accepts dev.card := all_success_accepts _ hok
  have happ3 : byteAt ((cap.lookup "Applet.cap").getD []) 3 = 1 := by
    rw [happ]; rfl
  obtain ⟨st, hst, hs⟩ := install_cmds dev cap hall hsz happ3 hacc
  obtain ⟨f1, f2, f3, f4⟩ := read_loop_fields cap _ _ st
    (by rw [spec_lfdb_length]; simp only [List.length_cons]; omega) hst
  have e1 : st.packaidlen = P.length := by
    rw [f1, hhdr]
    simp only [Option.getD_some]
    rw [← hpre, show pre ++ P.length :: P ++ post = pre ++ (P.length :: (P ++ post)) by simp,
      show pre.length = pre.length + 0 from rfl, byteAt_append_right]
    simp [byteAt, Nat.mod_eq_of_lt hP]
  have e3 : st.appaidlen = A.length := by
    rw [f3, happ]
    simp [byteAt, Nat.mod_eq_of_lt hA]
  have s1 : slice (spec_lfdb cap) st.packaid st.packaidlen = P := by
    apply slice_at _ ((0xc4 :: spec_length_encoding (comp_total cap components)) ++ pre
      ++ [P.length]) P (post ++ ((cap.lookup "Directory.cap").getD []
        ++ ((cap.lookup "Import.cap").getD [] ++ ((cap.lookup "Applet.cap").getD []
        ++ comp_bytes cap ["Class.cap", "Method.cap", "StaticField.cap", "ConstantPool.cap",
            "RefLocation.cap"]))))
    · rw [spec_lfdb, comp_bytes_components, hhdr]
      simp
    · rw [f2]
      simp [hpre]
    · exact e1
  have s2 : slice (spec_lfdb cap) st.appaid st.appaidlen = A := by
    apply slice_at _ ((0xc4 :: spec_length_encoding (comp_total cap components))
      ++ (cap.lookup "Header.cap").getD [] ++ (cap.lookup "Directory.cap").getD []
      ++ (cap.lookup "Import.cap").getD [] ++ [a0, a1, a2, 1, A.length]) A
      (post2 ++ comp_bytes cap ["Class.cap", "Method.cap", "StaticField.cap", "ConstantPool.cap",
            "RefLocation.cap"])
    · rw [spec_lfdb, comp_bytes_components, happ]
      simp
    · rw [f4]
      simp
      omega
    · exact e3
  have hin : install_in_bounds cap := by
    unfold install_in_bounds
    rw [← f1, ← f3, e1, e3, hhdr, happ]
    simp
    omega
  refine ⟨_, ?_, rfl, rfl, by simp; omega,
    install_cmds_fit dev cap hall hsz happ3 hacc hin⟩
  rw [hs, s1, s2, e1, e3]
  rw [show ∀ (x : List Nat) (xs : List (List Nat)) (y : List Nat),
      x :: xs ++ [y] = (x :: xs) ++ [y] from fun _ _ _ => rfl, List.getLast?_append]
  simp [Nat.mod_eq_of_lt hP, Nat.mod_eq_of_lt hA]
  omega

/-- C12 (witness): the statement at the archive `capAids`, whose package AID is
A0 00 00 05 27 and whose applet AID is A0 00 00 05 27 01. -/
theorem C12_install_selectable_witness :
    ∃ cmd : List Nat,
      (sent ⟨cardOk, []⟩ (backend_applet_install ⟨cardOk, []⟩ (some capAids)).2).getLast?
        = some cmd
      ∧ cmd = [0x80, 0xe6, 0x0c, 0x00,
            [0xa0, 0x00, 0x00, 0x05, 0x27].length
              + 2 * [0xa0, 0x00, 0x00, 0x05, 0x27, 0x01].length + 10,
            [0xa0, 0x00, 0x00, 0x05, 0x27].length] ++ [0xa0, 0x00, 0x00, 0x05, 0x27]
          ++ [[0xa0, 0x00, 0x00, 0x05, 0x27, 0x01].length] ++ [0xa0, 0x00, 0x00, 0x05, 0x27, 0x01]
          ++ [[0xa0, 0x00, 0x00, 0x05, 0x27, 0x01].length] ++ [0xa0, 0x00, 0x00, 0x05, 0x27, 0x01]
          ++ [0x01, 0x00, 0x03, 0xc9, 0x01, 0x00, 0x00]
      ∧ cmd.getD 4 0 = [0xa0, 0x00, 0x00, 0x05, 0x27].length
          + 2 * [0xa0, 0x00, 0x00, 0x05, 0x27, 0x01].length + 10
      ∧ (cmd.drop 5).length = [0xa0, 0x00, 0x00, 0x05, 0x27].length
          + 2 * [0xa0, 0x00, 0x00, 0x05, 0x27, 0x01].length + 10
      ∧ ∀ c ∈ sent ⟨cardOk, []⟩ (backend_applet_install ⟨cardOk, []⟩ (some capAids)).2, c.length ≤ 0xff + 5 :=
  C12_install_selectable ⟨cardOk, []⟩ capAids (List.replicate 12 0)
    [0xa0, 0x00, 0x00, 0x05, 0x27] [0x01, 0x02] 0x03 0x00 0x0a
    [0xa0, 0x00, 0x00, 0x05, 0x27, 0x01] [0x00, 0x08]
    (by decide) (by decide) (by decide) (by decide) (by decide) (by decide) (by decide)
    cardOk_all_success

/-- C13: assuming that encryption under the schedule of the static key is
injective on 8-byte blocks, the session key and the MAC key that
`backend_authenticate` computes are the CBC encryptions of the derivation blocks
01 82 and 01 01 with the sequence counter, so they depend on the static key and
the sequence counter only; both have 16 bytes, and they differ.  They are the
keys of the run: when the INITIALIZE UPDATE response `recv` has 30 bytes and
carries the Retail MAC under the session key, the command MAC of the
EXTERNAL AUTHENTICATE command that is transmitted is computed under the MAC key. -/
theorem C13_derived_keys (D : DesLib) (key recv : List Nat)
    (hinj : ∀ a b : List Nat, a.length = 8 → b.length = 8 →
      (∀ x ∈ a, x < 256) → (∀ x ∈ b, x < 256) →
      block8 (D.three_des_crypt a (spec_schedule D key))
        = block8 (D.three_des_crypt b (spec_schedule D key)) → a = b) :
    (authenticate_vars D key recv).sessionkey
        = spec_derive D key 0x01 0x82 (byteAt recv 12) (byteAt recv 13)
    ∧ (authenticate_vars D key recv).mackey
        = spec_derive D key 0x01 0x01 (byteAt recv 12) (byteAt recv 13)
    ∧ (∀ recv2 : List Nat, byteAt recv2 12 = byteAt recv 12 → byteAt recv2 13 = byteAt recv 13 →
        (authenticate_vars D key recv2).sessionkey = (authenticate_vars D key recv).sessionkey
        ∧ (authenticate_vars D key recv2).mackey = (authenticate_vars D key recv).mackey)
    ∧ (authenticate_vars D key recv).sessionkey.length = 16
    ∧ (authenticate_vars D key recv).mackey.length = 16
    ∧ (authenticate_vars D key recv).sessionkey ≠ (authenticate_vars D key recv).mackey
    ∧ (∀ (dev : ykneomgr_dev) (r1 r2 : Reply),
        dev.card (dev.log.map Prod.fst) selectApdu 256 = r1 →
        dev.card (dev.log.map Prod.fst ++ [selectApdu]) initUpdate r1.recvlen = r2 →
        r2.recv = recv → r2.recvlen = 30 →
        slice recv 20 8
          = spec_retail_mac D (spec_schedule D (authenticate_vars D key recv).sessionkey)
              (slice initUpdate 5 8 ++ [byteAt recv 12, byteAt recv 13] ++ slice recv 14 6) →
        ∃ r3 : Reply, (exchanges dev (backend_authenticate D dev key).2)[2]?
          = some ([0x84, 0x82, 0x00, 0x00, 0x10]
              ++ (authenticate_vars D key recv).host_cryptogram
              ++ spec_command_mac D (spec_schedule D (authenticate_vars D key recv).mackey)
                  ([0x84, 0x82, 0x00, 0x00, 0x10]
                    ++ (authenticate_vars D key recv).host_cryptogram), r3)) := by
  refine ⟨vars_sessionkey D key recv, vars_mackey D key recv, ?_, ?_, ?_, ?_, ?_⟩
  · intro recv2 h12 h13
    simp only [vars_sessionkey, vars_mackey, h12, h13, and_self]
  · simp [vars_sessionkey, spec_derive, spec_cbc, block8_length]
  · simp [vars_mackey, spec_derive, spec_cbc, block8_length]
  · rw [vars_sessionkey, vars_mackey]
    intro h
    simp only [spec_derive, spec_cbc] at h
    have h8 := (List.append_inj h (by simp [block8_length])).1
    have hx := hinj _ _ (by simp [xor8_eq]) (by simp [xor8_eq])
      (by
        intro x hx
        simp only [xor8_eq, List.mem_cons, List.mem_singleton, List.not_mem_nil, or_false] at hx
        rcases hx with h | h | h | h | h | h | h | h <;> subst h <;>
          exact Nat.xor_lt_two_pow (n := 8) (Nat.mod_lt _ (by decide)) (Nat.mod_lt _ (by decide)))
      (by
        intro x hx
        simp only [xor8_eq, List.mem_cons, List.mem_singleton, List.not_mem_nil, or_false] at hx
        rcases hx with h | h | h | h | h | h | h | h <;> subst h <;>
          exact Nat.xor_lt_two_pow (n := 8) (Nat.mod_lt _ (by decide)) (Nat.mod_lt _ (by decide)))
      h8
    simp [xor8_eq, byteAt] at hx
  · intro dev r1 r2 h1 h2 hr hlen hc
    subst hr
    exact authenticate_third_layout D dev key r1 r2 h1 h2 hlen hc

/-- C13 (witness): the statement at the identity cipher, which is injective,
the all-zero key and a response whose sequence counter is 00 07. -/
theorem C13_derived_keys_witness :
    (authenticate_vars idDes (List.replicate 16 0) (List.replicate 13 0 ++ [7])).sessionkey
        = spec_derive idDes (List.replicate 16 0) 0x01 0x82 0 7
    ∧ (authenticate_vars idDes (List.replicate 16 0) (List.replicate 13 0 ++ [7])).mackey
        = spec_derive idDes (List.replicate 16 0) 0x01 0x01 0 7
    ∧ (∀ recv2 : List Nat, byteAt recv2 12 = 0 → byteAt recv2 13 = 7 →
        (authenticate_vars idDes (List.replicate 16 0) recv2).sessionkey
          = (authenticate_vars idDes (List.replicate 16 0) (List.replicate 13 0 ++ [7])).sessionkey
        ∧ (authenticate_vars idDes (List.replicate 16 0) recv2).mackey
          = (authenticate_vars idDes (List.replicate 16 0) (List.replicate 13 0 ++ [7])).mackey)
    ∧ (authenticate_vars idDes (List.replicate 16 0)
        (List.replicate 13 0 ++ [7])).sessionkey.length = 16
    ∧ (authenticate_vars idDes (List.replicate 16 0)
        (List.replicate 13 0 ++ [7])).mackey.length = 16
    ∧ (authenticate_vars idDes (List.replicate 16 0) (List.replicate 13 0 ++ [7])).sessionkey
        ≠ (authenticate_vars idDes (List.replicate 16 0) (List.replicate 13 0 ++ [7])).mackey
    ∧ (∀ (dev : ykneomgr_dev) (r1 r2 : Reply),
        dev.card (dev.log.map Prod.fst) selectApdu 256 = r1 →
        dev.card (dev.log.map Prod.fst ++ [selectApdu]) initUpdate r1.recvlen = r2 →
        r2.recv = List.replicate 13 0 ++ [7] → r2.recvlen = 30 →
        slice (List.replicate 13 0 ++ [7]) 20 8
          = spec_retail_mac idDes (spec_schedule idDes (authenticate_vars idDes (List.replicate 16 0) (List.replicate 13 0 ++ [7])).sessionkey)
              (slice initUpdate 5 8 ++ [byteAt (List.replicate 13 0 ++ [7]) 12, byteAt (List.replicate 13 0 ++ [7]) 13] ++ slice (List.replicate 13 0 ++ [7]) 14 6) →
        ∃ r3 : Reply,
          (exchanges dev (backend_authenticate idDes dev (List.replicate 16 0)).2)[2]?
          = some ([0x84, 0x82, 0x00, 0x00, 0x10] ++ (authenticate_vars idDes (List.replicate 16 0) (List.replicate 13 0 ++ [7])).host_cryptogram
              ++ spec_command_mac idDes (spec_schedule idDes (authenticate_vars idDes (List.replicate 16 0) (List.replicate 13 0 ++ [7])).mackey)
                  ([0x84, 0x82, 0x00, 0x00, 0x10] ++ (authenticate_vars idDes (List.replicate 16 0) (List.replicate 13 0 ++ [7])).host_cryptogram), r3)) :=
  C13_derived_keys idDes (List.replicate 16 0) (List.replicate 13 0 ++ [7])
    (by
      intro a b ha hb hba hbb h
      have ea : block8 (idDes.three_des_crypt a (spec_schedule idDes (List.replicate 16 0)))
          = a := block8_of_bytes a ha hba
      have eb : block8 (idDes.three_des_crypt b (spec_schedule idDes (List.replicate 16 0)))
          = b := block8_of_bytes b hb hbb
      rw [ea, eb] at h
      exact h)

/-- C14 (divergence): for the response `03 AA 90 00` the call with a null
destination reports the size 4, and the call with a destination stores the
seven characters `aa9000` and NUL. -/
theorem C14_list_overrun :
    (backend_applet_list ⟨cardListShort, []⟩ false).len = 4
    ∧ (backend_applet_list ⟨cardListShort, []⟩ false).written = some []
    ∧ (backend_applet_list ⟨cardListShort, []⟩ true).written
        = some ['a', 'a', '9', '0', '0', '0', Char.ofNat 0]
    ∧ (((backend_applet_list ⟨cardListShort, []⟩ true).written).getD []).length = 7 := by
  decide

/-- C15 (counterexample): for the response `01 AA 01 BB 90 00`, two entries of
a length byte and an AID each before the status word, the call stores the
string of the first AID only. -/
theorem C15_second_entry_skipped :
    (backend_applet_list ⟨cardListPairs, []⟩ true).written = some ['a', 'a', Char.ofNat 0]
    ∧ (backend_applet_list ⟨cardListPairs, []⟩ true).written
        ≠ some (spec_aid_strings [[0xaa], [0xbb]]) := by
  decide

/-- C15 (amended): when the bytes of the GET STATUS response before the
two-byte status word are a sequence of entries, each a length byte, the AID
bytes and two further bytes, `backend_applet_list` with a destination stores,
in response order, the AID of each entry as lowercase hexadecimal digits, two
per byte, followed by a NUL, and nothing else. -/
theorem C15_list_entries (dev : ykneomgr_dev) (entries : List (List Nat × Nat × Nat))
    (sw1 sw2 : Nat)
    (hrecv : (dev.card (dev.log.map Prod.fst) listApdu 256).recv
      = (entries.map status_entry).flatten ++ [sw1, sw2])
    (hlen : (dev.card (dev.log.map Prod.fst) listApdu 256).recvlen
      = (dev.card (dev.log.map Prod.fst) listApdu 256).recv.length)
    (hcap : (dev.card (dev.log.map Prod.fst) listApdu 256).recvlen ≤ 256)
    (hbytes : ∀ e ∈ entries, ∀ b ∈ e.1, b < 256) :
    (backend_applet_list dev true).written
      = some (spec_aid_strings (entries.map (fun e => e.1))) := by
  unfold backend_applet_list
  simp only [backend_apdu_recv, backend_apdu_recvlen, take_listApdu, Bool.true_eq_false,
    if_false]
  generalize dev.card (dev.log.map Prod.fst) listApdu 256 = r at hrecv hlen hcap
  rw [hlen] at hcap ⊢
  have hl : r.recv.length = ((entries.map status_entry).flatten).length + 2 := by
    rw [hrecv]; simp
  obtain ⟨hk, he⟩ := status_entries_length entries
  have := list_loop_entries [sw1, sw2] rfl entries r.recv [] [] r.recv.length
    (by rw [hrecv]; simp) (by omega)
    (fun e h => ⟨by have := he e h; omega, hbytes e h⟩) (by omega)
  simpa using this

/-- C15 (witness): the amended statement at a response with the two entries
`01 AA 07 00` and `02 BB CC 07 00`. -/
theorem C15_list_entries_witness :
    (backend_applet_list ⟨cardListTwo, []⟩ true).written
      = some (spec_aid_strings
          ([([0xaa], 0x07, 0x00), ([0xbb, 0xcc], 0x07, 0x00)].map (fun e => e.1))) :=
  C15_list_entries ⟨cardListTwo, []⟩ [([0xaa], 0x07, 0x00), ([0xbb, 0xcc], 0x07, 0x00)]
    0x90 0x00 (by decide) (by decide) (by decide) (by decide)

/-- C16 (counterexample): for a component total of 0x80 the length encoding
after the tag has two bytes, 81 80, not one; for 0xFF it begins with 0x82, not
0x81; for 0x100 it has three bytes, not two; for 0xFFFF it begins with 0x83,
not 0x82. -/
theorem C16_length_encoding_differs :
    (∀ b : Nat, (lfdb_header 0x80).map Prod.fst ≠ some [0xc4, b])
    ∧ (∀ b : Nat, (lfdb_header 0xff).map Prod.fst ≠ some [0xc4, 0x81, b])
    ∧ (∀ b : Nat, (lfdb_header 0x100).map Prod.fst ≠ some [0xc4, 0x82, b])
    ∧ (∀ b c : Nat, (lfdb_header 0xffff).map Prod.fst ≠ some [0xc4, 0x82, b, c]) := by
  refine ⟨?_, ?_, ?_, ?_⟩ <;> intros <;> simp [lfdb_header]

/-- C16 (amended): for component totals of 0x7F, 0x80, 0xFF, 0x100, 0xFFFF and
0x10000 bytes the bytes stored after the tag 0xC4 are 7F; 81 80; 82 00 FF;
82 01 00; 83 00 FF FF; 83 01 00 00. -/
theorem C16_length_encoding :
    (lfdb_header 0x7f).map Prod.fst = some [0xc4, 0x7f]
    ∧ (lfdb_header 0x80).map Prod.fst = some [0xc4, 0x81, 0x80]
    ∧ (lfdb_header 0xff).map Prod.fst = some [0xc4, 0x82, 0x00, 0xff]
    ∧ (lfdb_header 0x100).map Prod.fst = some [0xc4, 0x82, 0x01, 0x00]
    ∧ (lfdb_header 0xffff).map Prod.fst = some [0xc4, 0x83, 0x00, 0xff, 0xff]
    ∧ (lfdb_header 0x10000).map Prod.fst = some [0xc4, 0x83, 0x01, 0x00, 0x00] := by
  decide

/-- C17 (counterexample): an archive whose load file data block has 65302
bytes is loaded in 257 LOAD commands; the block number of the command with
index 256 is 0, the same as that of the first command. -/
theorem C17_block_number_wraps :
    (load_apdus ⟨cardOk, []⟩ (backend_applet_install ⟨cardOk, []⟩ (some capBlocks)).2).length
        = 257
    ∧ ((load_apdus ⟨cardOk, []⟩
        (backend_applet_install ⟨cardOk, []⟩ (some capBlocks)).2).map
          (fun c => c.getD 3 0))[256]? = some 0
    ∧ ((load_apdus ⟨cardOk, []⟩
        (backend_applet_install ⟨cardOk, []⟩ (some capBlocks)).2).map
          (fun c => c.getD 3 0))[0]? = some 0 := by
  have hacc : accepts (ykneomgr_dev.mk cardOk []).card := all_success_accepts _ cardOk_all_success
  have hp := install_load_p2 ⟨cardOk, []⟩ capBlocks capBlocks_present
    (by rw [capBlocks_total]; decide) capBlocks_applet hacc
  have hl := congrArg List.length hp
  rw [capBlocks_length] at hp hl
  simp only [List.length_map, List.length_range] at hl
  refine ⟨hl, ?_, ?_⟩
  · rw [hp]
    simp
  · rw [hp]
    simp

/-- C17 (amended): for an archive that `backend_applet_install` accepts, on
which no access leaves an array (`install_in_bounds`), and loads with all card
replies successful, the block number byte of the LOAD
command with index `j` is `j mod 256`; it is `j` itself when the load file
data block has fewer than 65280 bytes, that is, when there are at most 256 LOAD
commands.  Every command of the run fits the array `send`. -/
theorem C17_load_block_numbers (dev : ykneomgr_dev) (cap : zip)
    (hall : ∀ c ∈ components, (cap.lookup c).isSome = true)
    (hsz : comp_total cap components < 0xffffff)
    (happ : byteAt ((cap.lookup "Applet.cap").getD []) 3 = 1)
    (hok : all_success dev.card) (hin : install_in_bounds cap) :
    (load_apdus dev (backend_applet_install dev (some cap)).2).map (fun c => c.getD 3 0)
        = (List.range (load_apdus dev (backend_applet_install dev (some cap)).2).length).map
            (fun j => j % 256)
    ∧ ((spec_lfdb cap).length < 65280 →
        (load_apdus dev (backend_applet_install dev (some cap)).2).map (fun c => c.getD 3 0)
          = List.range (load_apdus dev (backend_applet_install dev (some cap)).2).length)
    ∧ ∀ c ∈ sent dev (backend_applet_install dev (some cap)).2, c.length ≤ 0xff + 5 := by
  have hfit := install_cmds_fit dev cap hall hsz happ (all_success_accepts _ hok) hin
  have hp := install_load_p2 dev cap hall hsz happ (all_success_accepts _ hok)
  have hl := congrArg List.length hp
  simp only [List.length_map, List.length_range] at hl
  rw [hl]
  refine ⟨hp, fun hlt => ?_, hfit⟩
  rw [hp]
  have hid : ∀ j ∈ List.range ((spec_lfdb cap).length / 255 + 1),
      (fun j => j % 256) j = id j := by
    intro j hj
    have := List.mem_range.mp hj
    exact Nat.mod_eq_of_lt (by omega)
  rw [List.map_congr_left hid, List.map_id]

/-- C17 (witness): the amended statement at the archive `cap252`, which is
loaded in two LOAD commands, and a card whose replies are all successful. -/
theorem C17_load_block_numbers_witness :
    (load_apdus ⟨cardOk, []⟩ (backend_applet_install ⟨cardOk, []⟩ (some cap252)).2).map
          (fun c => c.getD 3 0)
        = (List.range
            (load_apdus ⟨cardOk, []⟩
              (backend_applet_install ⟨cardOk, []⟩ (some cap252)).2).length).map
            (fun j => j % 256)
    ∧ ((spec_lfdb cap252).length < 65280 →
        (load_apdus ⟨cardOk, []⟩ (backend_applet_install ⟨cardOk, []⟩ (some cap252)).2).map
            (fun c => c.getD 3 0)
          = List.range
              (load_apdus ⟨cardOk, []⟩
                (backend_applet_install ⟨cardOk, []⟩ (some cap252)).2).length)
    ∧ ∀ c ∈ sent ⟨cardOk, []⟩ (backend_applet_install ⟨cardOk, []⟩ (some cap252)).2, c.length ≤ 0xff + 5 :=
  C17_load_block_numbers ⟨cardOk, []⟩ cap252 cap252_present (by rw [cap252_total]; decide)
    cap252_applet cardOk_all_success (by unfold install_in_bounds; decide)

/-- C18: the last 8 bytes of the EXTERNAL AUTHENTICATE command that
`backend_authenticate` builds from a MAC key and an 8-byte host cryptogram are
the Retail MAC of the padded message: the 13 bytes 84 82 00 00 10 and host
cryptogram, followed by 80 00 00; that is, triple-DES of (single-DES under the
left key of block 0) XOR block 1.  That command is what a run transmits as its
third command, with the MAC key and the host cryptogram of the run, when the
INITIALIZE UPDATE response has 30 bytes and the expected card cryptogram. -/
theorem C18_command_mac (D : DesLib) (mackey hc : List Nat) (h : hc.length = 8) :
    (List.take (5 + 16) (authenticate_send D mackey hc)).drop 13
        = spec_command_mac D (spec_schedule D mackey) ([0x84, 0x82, 0x00, 0x00, 0x10] ++ hc)
    ∧ spec_pad ([0x84, 0x82, 0x00, 0x00, 0x10] ++ hc)
        = [0x84, 0x82, 0x00, 0x00, 0x10] ++ hc ++ [0x80, 0x00, 0x00]
    ∧ spec_command_mac D (spec_schedule D mackey) ([0x84, 0x82, 0x00, 0x00, 0x10] ++ hc)
        = block8 (D.three_des_crypt
            (xor8 (block8 (D.des_crypt
                ((spec_pad ([0x84, 0x82, 0x00, 0x00, 0x10] ++ hc)).take 8)
                ((spec_schedule D mackey).getD 0 [])))
              (((spec_pad ([0x84, 0x82, 0x00, 0x00, 0x10] ++ hc)).drop 8).take 8))
            (spec_schedule D mackey))
    ∧ (∀ (dev : ykneomgr_dev) (key : List Nat) (r1 r2 : Reply),
        dev.card (dev.log.map Prod.fst) selectApdu 256 = r1 →
        dev.card (dev.log.map Prod.fst ++ [selectApdu]) initUpdate r1.recvlen = r2 →
        r2.recvlen = 30 → slice r2.recv 20 8 = spec_card_cryptogram D key r2.recv →
        ∃ r3 : Reply, (exchanges dev (backend_authenticate D dev key).2)[2]?
          = some (List.take (5 + 16)
              (authenticate_send D (authenticate_vars D key r2.recv).mackey
                (authenticate_vars D key r2.recv).host_cryptogram), r3)) := by
  refine ⟨?_, ?_, rfl, ?_⟩
  · rw [show 5 + 16 = 21 from rfl, send_layout D mackey hc h]
    simp [h]
  · simp [spec_pad, h]
  · intro dev key r1 r2 h1 h2 hlen hc
    exact authenticate_third D dev key r1 r2 h1 h2 hlen hc

/-- C18 (witness): the statement at the identity cipher, the all-zero MAC key
and the host cryptogram 81 02 03 04 05 06 07 08. -/
theorem C18_command_mac_witness :
    (List.take (5 + 16)
        (authenticate_send idDes (List.replicate 16 0) [0x81, 2, 3, 4, 5, 6, 7, 8])).drop 13
        = spec_command_mac idDes (spec_schedule idDes (List.replicate 16 0))
            ([0x84, 0x82, 0x00, 0x00, 0x10] ++ [0x81, 2, 3, 4, 5, 6, 7, 8])
    ∧ spec_pad ([0x84, 0x82, 0x00, 0x00, 0x10] ++ [0x81, 2, 3, 4, 5, 6, 7, 8])
        = [0x84, 0x82, 0x00, 0x00, 0x10] ++ [0x81, 2, 3, 4, 5, 6, 7, 8] ++ [0x80, 0x00, 0x00]
    ∧ spec_command_mac idDes (spec_schedule idDes (List.replicate 16 0))
          ([0x84, 0x82, 0x00, 0x00, 0x10] ++ [0x81, 2, 3, 4, 5, 6, 7, 8])
        = block8 (idDes.three_des_crypt
            (xor8 (block8 (idDes.des_crypt
                ((spec_pad ([0x84, 0x82, 0x00, 0x00, 0x10] ++ [0x81, 2, 3, 4, 5, 6, 7, 8])).take 8)
                ((spec_schedule idDes (List.replicate 16 0)).getD 0 [])))
              (((spec_pad ([0x84, 0x82, 0x00, 0x00, 0x10]
                  ++ [0x81, 2, 3, 4, 5, 6, 7, 8])).drop 8).take 8))
            (spec_schedule idDes (List.replicate 16 0)))
    ∧ (∀ (dev : ykneomgr_dev) (key : List Nat) (r1 r2 : Reply),
        dev.card (dev.log.map Prod.fst) selectApdu 256 = r1 →
        dev.card (dev.log.map Prod.fst ++ [selectApdu]) initUpdate r1.recvlen = r2 →
        r2.recvlen = 30 → slice r2.recv 20 8 = spec_card_cryptogram idDes key r2.recv →
        ∃ r3 : Reply, (exchanges dev (backend_authenticate idDes dev key).2)[2]?
          = some (List.take (5 + 16)
              (authenticate_send idDes (authenticate_vars idDes key r2.recv).mackey
                (authenticate_vars idDes key r2.recv).host_cryptogram), r3)) :=
  C18_command_mac idDes (List.replicate 16 0) [0x81, 2, 3, 4, 5, 6, 7, 8] rfl

/-- C19 (divergence): the command that `backend_applet_delete` hands to the
transport has `7 + aidlen` bytes, whatever the card answers; for an AID of 255
bytes it has 262 bytes, and its Lc byte is 1. -/
theorem C19_delete_command_length :
    (∀ (dev : ykneomgr_dev) (aid : List Nat) (aidlen : Nat),
      ∃ cmd : List Nat, sent dev (backend_applet_delete dev aid aidlen).2 = [cmd]
        ∧ cmd.length = 7 + aidlen)
    ∧ (∀ card : List (List Nat) → List Nat → Nat → Reply,
        ∃ cmd : List Nat,
          sent ⟨card, []⟩ (backend_applet_delete ⟨card, []⟩ (List.replicate 255 0xa0) 255).2
            = [cmd]
          ∧ cmd.length = 262 ∧ cmd.take 7 = [0x80, 0xe4, 0x00, 0x80, 0x01, 0x4f, 0xff]) := by
  have h : ∀ (dev : ykneomgr_dev) (aid : List Nat) (aidlen : Nat),
      sent dev (backend_applet_delete dev aid aidlen).2
        = [[0x80, 0xe4, 0, 0x80, (aidlen + 2) % 256, 0x4f, aidlen % 256]
            ++ slice aid 0 aidlen] := by
    intro dev aid aidlen
    unfold backend_applet_delete
    simp only [backend_apdu_dev, backend_apdu_recv, backend_apdu_recvlen, List.take_length]
    split_ifs <;> simp [sent, exchanges]
  constructor
  · intro dev aid aidlen
    refine ⟨_, h dev aid aidlen, ?_⟩
    simp [slice_length]
    omega
  · intro card
    refine ⟨_, h _ _ _, ?_, rfl⟩
    rw [List.length_append, slice_length]
    rfl

/-- C20: for `n >= 1` blocks, an output capacity of at least `8 * n` bytes and
lengths that the C types hold, `des_encrypt_cbc` returns `8 * n` and writes the
output of CBC encryption with an explicit running IV over the `n` 8-byte blocks
of the input; a recursion depth of `n` is enough. -/
theorem C20_cbc_iterative (D : DesLib) (n : Nat) (inp iv : List Nat)
    (s : List (List (List Nat))) (out_len : Nat)
    (hn : 1 ≤ n) (hcap : 8 * n ≤ out_len) (hsz : out_len < 18446744073709551616)
    (hint : 8 * n ≤ 2147483647) :
    des_encrypt_cbc D inp (8 * n) out_len iv s = (8 * n, spec_cbc D s iv (cbc_blocks inp n))
    ∧ des_encrypt_cbc_fuel D n inp (8 * n) out_len iv s
        = some (8 * n, spec_cbc D s iv (cbc_blocks inp n)) := by
  obtain ⟨m, rfl⟩ := Nat.exists_eq_succ_of_ne_zero (by omega : n ≠ 0)
  constructor
  · unfold des_encrypt_cbc
    have h := des_encrypt_cbc_fuel_blocks D s m 2305843009213693954 inp iv out_len
      (by omega) hcap hsz
    exact (congrArg (fun o => Option.getD o (0, [])) h)
  · exact des_encrypt_cbc_fuel_blocks D s m (m + 1) inp iv out_len (Nat.le_refl _) hcap hsz

/-- C20 (witness): four blocks under the identity cipher. -/
theorem C20_cbc_iterative_witness :
    des_encrypt_cbc idDes (List.range 32) (8 * 4) 32 [1, 1, 1, 1, 1, 1, 1, 1] []
        = (8 * 4, spec_cbc idDes [] [1, 1, 1, 1, 1, 1, 1, 1] (cbc_blocks (List.range 32) 4))
    ∧ des_encrypt_cbc_fuel idDes 4 (List.range 32) (8 * 4) 32 [1, 1, 1, 1, 1, 1, 1, 1] []
        = some (8 * 4, spec_cbc idDes [] [1, 1, 1, 1, 1, 1, 1, 1] (cbc_blocks (List.range 32) 4)) :=
  C20_cbc_iterative idDes 4 (List.range 32) [1, 1, 1, 1, 1, 1, 1, 1] [] 32
    (by decide) (by decide) (by decide) (by decide)

end Ykneomgr
